import Mathlib

/-!
Shallow embedding of the simulation core of the `simpleTD` tower-defense
game (`src/main.js`, final variant).  JavaScript numbers are modelled as
exact rationals (`ℚ`); the money and life counters, which only ever hold
integers, are modelled as `ℤ`.  `Math.round` and `Math.floor` are modelled
by `jsRound` and `jsFloor` below.  DOM access, rendering (particles, beam
records, HUD updates, the game-over modal) and input-event plumbing are
out of scope of the simulation state, exactly as in the specification;
the functions embedded here are the state-mutating parts of the source.

Where the source compares a Euclidean distance (`Math.hypot`, an
irrational square root in general) against a non-negative threshold, the
embedding compares the squared distance against the squared threshold,
which is exactly equivalent (`Real.sqrt x ≤ c ↔ x ≤ c ^ 2` for `0 ≤ c`,
and both sides of every such comparison in the source are non-negative).
Where the source uses the *value* of a square root (path segment lengths,
projectile direction normalisation), the embedding takes the square-root
function as an explicit parameter (`hyp` for segment lengths, `rt` for
normalisation) and every theorem holds for all choices of that parameter,
in particular the true Euclidean one.
-/

namespace SimpleTD

/-- `Math.round q`: rounds half toward positive infinity, `⌊q + 1/2⌋`. -/
def jsRound (q : ℚ) : ℤ := ⌊q + 1/2⌋

/-- `Math.floor q`. -/
def jsFloor (q : ℚ) : ℤ := ⌊q⌋

/-- `const CANVAS_W = 960`. -/
def CANVAS_W : ℚ := 960

/-- `const CANVAS_H = 500`. -/
def CANVAS_H : ℚ := 500

/-- A 2-D point `{x, y}`. -/
structure Pt where
  x : ℚ
  y : ℚ
deriving DecidableEq, Repr

/-- `lerp(a, b, t) = a + (b - a) * t`. -/
def lerp (a b t : ℚ) : ℚ := a + (b - a) * t

/-- Componentwise `lerp` of two points (as used in `Path.posAt`). -/
def lerpPt (a b : Pt) (t : ℚ) : Pt := ⟨lerp a.x b.x t, lerp a.y b.y t⟩

/-- `clamp(v, a, b) = Math.max(a, Math.min(b, v))`. -/
def clamp (v a b : ℚ) : ℚ := max a (min b v)

/-- Squared Euclidean distance between two points; the source's
`dist(a, b) = Math.hypot(a.x-b.x, a.y-b.y)` only ever feeds comparisons
against non-negative constants, rendered here on squares. -/
def distSq (a b : Pt) : ℚ := (a.x - b.x) ^ 2 + (a.y - b.y) ^ 2

/-- Squared form of `pointSegDist(px, py, ax, ay, bx, by)`: the projection
parameter `t` and the clamped closest point are exact rationals, so the
squared distance is exact; the source's `Math.hypot` result is its square
root and is only ever compared against non-negative bounds. -/
def pointSegDistSq (px py ax ay bx by' : ℚ) : ℚ :=
  let vx := bx - ax
  let vy := by' - ay
  let wx := px - ax
  let wy := py - ay
  let vv := vx * vx + vy * vy
  let t := if vv > 0 then clamp ((wx * vx + wy * vy) / vv) 0 1 else 0
  let cx := ax + t * vx
  let cy := ay + t * vy
  (px - cx) ^ 2 + (py - cy) ^ 2

/-- One path segment `{a, b, len, acc}` as built by the `Path` constructor. -/
structure Seg where
  a : Pt
  b : Pt
  len : ℚ
  acc : ℚ
deriving DecidableEq, Repr

/-- The `Path` class data: waypoints, derived segments, total length. -/
structure Path where
  points : List Pt
  segs : List Seg
  length : ℚ
deriving DecidableEq, Repr

/-- The segment-building loop of the `Path` constructor.  `hyp a b` models
`Math.hypot(b.x - a.x, b.y - a.y)` (the segment length), taken as a
parameter because exact square roots are not rational; theorems about
paths hold for every `hyp`, in particular the Euclidean one.  Returns the
segment list and the final accumulated `length`. -/
def buildSegs (hyp : Pt → Pt → ℚ) : List Pt → ℚ → List Seg × ℚ
  | a :: b :: rest, acc =>
    let len := hyp a b
    let r := buildSegs hyp (b :: rest) (acc + len)
    ({ a := a, b := b, len := len, acc := acc } :: r.1, r.2)
  | _, acc => ([], acc)

/-- `new Path(points)`. -/
def mkPath (hyp : Pt → Pt → ℚ) (pts : List Pt) : Path :=
  let r := buildSegs hyp pts 0
  { points := pts, segs := r.1, length := r.2 }

/-- The segment-scanning loop of `posAt`: first segment with
`s ≤ seg.acc + seg.len` wins; falls through to the last waypoint. -/
def posAtGo (last : Pt) (s : ℚ) : List Seg → Pt
  | [] => last
  | sg :: rest =>
    if s ≤ sg.acc + sg.len then lerpPt sg.a sg.b ((s - sg.acc) / sg.len)
    else posAtGo last s rest

/-- `Path.posAt(s)`.  The source indexes `points[0]` and
`points[points.length - 1]`; on an empty waypoint list (never built by the
program) the embedding returns the default point `(0, 0)`. -/
def Path.posAt (p : Path) (s : ℚ) : Pt :=
  if s ≤ 0 then p.points.headD ⟨0, 0⟩
  else if s ≥ p.length then p.points.getLastD ⟨0, 0⟩
  else posAtGo (p.points.getLastD ⟨0, 0⟩) s p.segs

/-- `Path.minDistTo(x, y) < c` for a non-negative threshold `c`, rendered
exactly: the minimum over segments of the Euclidean distance is below `c`
iff some segment's squared distance is below `c ^ 2` (the empty-segment
case gives `Infinity < c`, i.e. `false`, matching `List.any` on `[]`). -/
def Path.minDistLtSq (p : Path) (x y csq : ℚ) : Bool :=
  p.segs.any fun sg => pointSegDistSq x y sg.a.x sg.a.y sg.b.x sg.b.y < csq

/-- Membership of a point on a path's polyline: one of the waypoints, or a
convex combination of some segment's endpoints. -/
def OnPolyline (p : Path) (q : Pt) : Prop :=
  q ∈ p.points ∨ ∃ sg ∈ p.segs, ∃ t : ℚ, 0 ≤ t ∧ t ≤ 1 ∧ q = lerpPt sg.a sg.b t

/-- Exact value of `Math.hypot(b.x - a.x, b.y - a.y)` for axis-aligned
point pairs (every segment of the default path is axis-aligned); used to
instantiate the `hyp` parameter on the concrete path. -/
def axisLen (a b : Pt) : ℚ :=
  if a.x = b.x then |b.y - a.y| else if a.y = b.y then |b.x - a.x| else 0

/-- The waypoint list built by `createDefaultPath()` with
`CANVAS_W = 960`, `CANVAS_H = 500`: `top = 80`, `bottom = 420`,
`span = 340`, `lane = min(120, max(40, floor(340/3))) = 113`. -/
def defaultPoints : List Pt :=
  [⟨-80, 80⟩, ⟨880, 80⟩, ⟨880, 193⟩, ⟨80, 193⟩, ⟨80, 306⟩, ⟨880, 306⟩,
   ⟨880, 420⟩, ⟨1040, 420⟩]

/-- `createDefaultPath()`; all its segments are axis-aligned, so `axisLen`
is the exact value of the source's `Math.hypot` lengths. -/
def createDefaultPath : Path := mkPath axisLen defaultPoints

/-- Tower type strings `"basic" | "bomber" | "laser"`. -/
inductive TowerType
  | basic
  | bomber
  | laser
deriving DecidableEq, Repr

/-- Enemy variant strings `"normal" | "armored" | "boss"`. -/
inductive EnemyType
  | normal
  | armored
  | boss
deriving DecidableEq, Repr

/-- The static fields of a tower definition object (`BASIC_TOWER`,
`BOMBER_TOWER`, `LASER_TOWER`).  `upgradeCost` is a per-type function and
is embedded separately as `upgradeCost`; `name` and `color` are
rendering-only.  Missing `perLevel` entries and `baseSplash` default to 0
exactly as the source's `(cfg.x || 0)` reads do. -/
structure TowerCfg where
  baseCost : ℤ
  baseRange : ℚ
  baseDamage : ℚ
  baseRate : ℚ
  projectileSpeed : ℚ
  perLevelRange : ℚ
  perLevelDamage : ℚ
  perLevelRate : ℚ
  perLevelSplash : ℚ := 0
  baseSplash : ℚ := 0
  maxLevel : ℕ := 6
deriving DecidableEq, Repr

/-- `BASIC_TOWER`. -/
def BASIC_TOWER : TowerCfg :=
  { baseCost := 50, baseRange := 140, baseDamage := 12, baseRate := 1.6,
    projectileSpeed := 500, perLevelRange := 12, perLevelDamage := 6,
    perLevelRate := 0.18, maxLevel := 6 }

/-- `BOMBER_TOWER`. -/
def BOMBER_TOWER : TowerCfg :=
  { baseCost := 80, baseRange := 120, baseDamage := 18, baseRate := 0.9,
    projectileSpeed := 420, baseSplash := 20, perLevelRange := 10,
    perLevelDamage := 6, perLevelRate := 0.12, perLevelSplash := 10,
    maxLevel := 6 }

/-- `LASER_TOWER` (its `baseRange` is `BOMBER_TOWER.baseRange`). -/
def LASER_TOWER : TowerCfg :=
  { baseCost := 120, baseRange := 120, baseDamage := 30, baseRate := 0,
    projectileSpeed := 0, perLevelRange := 10, perLevelDamage := 10,
    perLevelRate := 0, maxLevel := 6 }

/-- `getTowerCfg(type)` (the later, three-type definition, which shadows
the earlier two-type one in the source). -/
def getTowerCfg : TowerType → TowerCfg
  | .bomber => BOMBER_TOWER
  | .laser => LASER_TOWER
  | .basic => BASIC_TOWER

/-- The per-type `upgradeCost(level)` methods:
basic `round(60·1.6^(l-1))`, bomber `round(80·1.55^(l-1))`,
laser `round(120·1.5^(l-1))`. -/
def upgradeCost (ty : TowerType) (level : ℕ) : ℤ :=
  match ty with
  | .basic => jsRound (60 * (1.6 : ℚ) ^ (level - 1))
  | .bomber => jsRound (80 * (1.55 : ℚ) ^ (level - 1))
  | .laser => jsRound (120 * (1.5 : ℚ) ^ (level - 1))

/-- A placed tower `{id, type, x, y, level, cooldown}`. -/
structure Tower where
  id : ℕ
  type : TowerType
  x : ℚ
  y : ℚ
  level : ℕ
  cooldown : ℚ
deriving DecidableEq, Repr

/-- The derived-stat record returned by `towerStats`. -/
structure Stats where
  range : ℚ
  damage : ℚ
  rate : ℚ
  projectileSpeed : ℚ
  splash : ℚ
deriving DecidableEq, Repr

/-- `towerStats(t)`.  `t.level || 1` is modelled by substituting 1 for a
zero level; `Math.max(0, lvl - maxLevel)` is truncated `ℕ` subtraction. -/
def towerStats (t : Tower) : Stats :=
  let cfg := getTowerCfg t.type
  let lvl := if t.level = 0 then 1 else t.level
  let baseDamage := cfg.baseDamage + cfg.perLevelDamage * ((lvl : ℚ) - 1)
  let over := lvl - cfg.maxLevel
  let dmg : ℚ :=
    if over > 0 then (jsRound (baseDamage * (2.5 : ℚ) ^ over) : ℚ) else baseDamage
  let range0 := cfg.baseRange + cfg.perLevelRange * ((lvl : ℚ) - 1)
  let range := if t.type = .laser then range0 * 2 else range0
  { range := range, damage := dmg,
    rate := cfg.baseRate + cfg.perLevelRate * ((lvl : ℚ) - 1),
    projectileSpeed := cfg.projectileSpeed,
    splash := cfg.baseSplash + cfg.perLevelSplash * ((lvl : ℚ) - 1) }

/-- `upgradeCostFor(t)`: a flat 1000 at or beyond the level cap,
otherwise the type's exponential cost for the current level. -/
def upgradeCostFor (t : Tower) : ℤ :=
  let cfg := getTowerCfg t.type
  let lvl := if t.level = 0 then 1 else t.level
  if lvl ≥ cfg.maxLevel then 1000 else upgradeCost t.type lvl

/-- An enemy record as pushed by `spawnEnemy`.  `eid` models JavaScript
object identity (projectiles hold a reference to their target; the model
keys enemies by a fresh number drawn from a counter) and `shape`/`color`
are rendering-only and omitted.  `spawnId` mirrors the source field read
by `acquireFirstSpawned`; no code path ever assigns it, so it is always
`none`, modelling `undefined`. -/
structure Enemy where
  eid : ℕ
  s : ℚ
  hp : ℚ
  maxHp : ℚ
  speed : ℚ
  r : ℚ
  alive : Bool
  boss : Bool := false
  armorBasicMul : Option ℚ := none
  spawnId : Option ℕ := none
deriving DecidableEq, Repr

/-- The enemy literal pushed by `spawnEnemy(hp, speed, type)` for each
variant tag. -/
def mkEnemy (eid : ℕ) (hp speed : ℚ) : EnemyType → Enemy
  | .armored =>
    { eid := eid, s := 0, hp := hp, maxHp := hp, speed := speed, r := 16,
      alive := true, armorBasicMul := some 0.4 }
  | .boss =>
    { eid := eid, s := 0, hp := hp, maxHp := hp, speed := speed, r := 22,
      alive := true, boss := true }
  | .normal =>
    { eid := eid, s := 0, hp := hp, maxHp := hp, speed := speed, r := 14,
      alive := true }

/-- `killReward(enemy)`: flat 500 for bosses, otherwise
`max(5, round(maxHp * 0.08))`. -/
def killReward (e : Enemy) : ℤ :=
  if e.boss then 500 else max 5 (jsRound (e.maxHp * 0.08))

/-- `damageAfterArmor(dmg, sourceType, enemy)`: armored enemies scale
damage from `"basic"`-type sources by their `armorBasicMul`. -/
def damageAfterArmor (dmg : ℚ) (sourceType : TowerType) (e : Enemy) : ℚ :=
  match sourceType, e.armorBasicMul with
  | .basic, some m => dmg * m
  | _, _ => dmg

/-- A pending spawn record `{hp, speed, type}` in the wave queue. -/
structure SpawnRec where
  hp : ℚ
  speed : ℚ
  type : EnemyType
deriving DecidableEq, Repr

/-- The record returned by `waveFor`. -/
structure WaveParams where
  count : ℤ
  hp : ℤ
  speed : ℚ
  gap : ℚ
deriving DecidableEq, Repr

/-- `waveFor(index)`: the infinite wave scaling function, written exactly
as in the source with its 1-based `n = index + 1`. -/
def waveFor (index : ℕ) : WaveParams :=
  let n := index + 1
  { hp := jsRound (24 * (1.22 : ℚ) ^ (n - 1)),
    count := jsRound ((12 : ℚ) + min 40 (((n : ℚ) - 1) * 2.5)),
    speed := min 140 ((70 : ℚ) + ((n : ℚ) - 1) * 2.0),
    gap := max 0.33 ((0.7 : ℚ) - ((n : ℚ) - 1) * 0.02) }

/-- `completionReward(index)`: flat 50. -/
def completionReward (_index : ℕ) : ℤ := 50

/-- The wave-complete overlay summary data (`state.overlay`); `bonus`
starts out unset (`undefined`), modelled by `none`. -/
structure Overlay where
  visible : Bool
  earned : ℤ
  bonus : Option ℤ
  completedWave : ℕ
deriving DecidableEq, Repr

/-- A projectile as pushed by `shoot`.  The target object reference is
modelled by the target's `eid`; `kind` is `explosive` exactly when the
firing tower is a bomber, modelled by the Boolean `explosive`. -/
structure Projectile where
  x : ℚ
  y : ℚ
  vx : ℚ
  vy : ℚ
  speed : ℚ
  dmg : ℚ
  targetEid : ℕ
  explosive : Bool
  splash : ℚ
  sourceType : TowerType
  dead : Bool := false
deriving DecidableEq, Repr

/-- The simulation-relevant fields of the global `state` object.  Omitted
as rendering/input-layer only: `lastTs`, `mouse`, `selectedTool`, `drag`,
`particles`, `laserBeams` (rebuilt from scratch each frame for drawing
only).  `nextEid` is the model's counter for enemy object
identity; `nextTowerId` is the source's `nextTowerId`. -/
structure GState where
  money : ℤ
  lives : ℤ
  waveIndex : ℕ
  inWave : Bool
  time : ℚ
  path : Path
  towers : List Tower
  enemies : List Enemy
  projectiles : List Projectile
  spawnQueue : List SpawnRec
  spawnInterval : ℚ
  spawnElapsed : ℚ
  selectedTowerId : Option ℕ
  autoWave : Bool
  nextWaveTimer : ℚ
  overlay : Overlay
  turbo : Bool
  nextTowerId : ℕ
  nextEid : ℕ
deriving DecidableEq, Repr

/-- `spawnEnemy(hp, speed, type)`: append the variant's enemy record. -/
def spawnEnemy (st : GState) (hp speed : ℚ) (ty : EnemyType) : GState :=
  { st with enemies := st.enemies ++ [mkEnemy st.nextEid hp speed ty],
            nextEid := st.nextEid + 1 }

/-- The armored-injection loop of `startWave`: for
`i < armoredN && i < queue.length`, replace the entry at
`idx = floor((i+1) * (length/(armoredN+1)))` (falling back to the last
entry if out of bounds, as `queue[idx] || queue[length-1]` does) with an
armored variant. -/
def armoredInject (armoredN : ℕ) (q : List SpawnRec) : List SpawnRec :=
  (List.range armoredN).foldl
    (fun q i =>
      if i < q.length then
        let idx := (jsFloor (((i : ℚ) + 1) * ((q.length : ℚ) / ((armoredN : ℚ) + 1)))).toNat
        let base := (q.get? idx).getD (q.getLastD ⟨0, 0, .normal⟩)
        q.set idx
          { hp := (jsRound (base.hp * 2.4) : ℚ),
            speed := ((max 50 (jsRound (base.speed * 0.85)) : ℤ) : ℚ),
            type := .armored }
      else q)
    q

/-- `startWave()`: no-op while a wave is in progress; otherwise builds the
spawn queue (normals, armored injection from wave index 1, one appended
boss from wave index 2) and flips the wave state (the `btnStart.disabled`
DOM write is out of scope). -/
def startWave (st : GState) : GState :=
  if st.inWave then st
  else
    let w := waveFor st.waveIndex
    let q0 : List SpawnRec :=
      List.replicate w.count.toNat { hp := (w.hp : ℚ), speed := w.speed, type := .normal }
    let q1 :=
      if 1 ≤ st.waveIndex then
        armoredInject (max 2 (jsFloor ((w.count : ℚ) * 0.2))).toNat q0
      else q0
    let q2 :=
      if 2 ≤ st.waveIndex then
        q1 ++ [{ hp := ((jsRound ((w.hp : ℚ) * 10) : ℤ) : ℚ),
                 speed := ((max 45 (jsRound (w.speed * 0.8)) : ℤ) : ℚ),
                 type := .boss }]
      else q1
    { st with spawnQueue := q2, spawnInterval := w.gap, spawnElapsed := 0,
              inWave := true, nextWaveTimer := 0,
              overlay := { st.overlay with visible := false } }

/-- `canPlaceTower(pos)` with the pending tower type made explicit (the
source reads it from `pendingTowerType()`; `canPlaceTower` and `addTower`
read the same value).  Distance comparisons are rendered on squares. -/
def canPlaceTower (st : GState) (pos : Pt) (ty : TowerType) : Bool :=
  if pos.x < 20 ∨ pos.x > CANVAS_W - 20 ∨ pos.y < 20 ∨ pos.y > CANVAS_H - 20 then false
  else if st.path.minDistLtSq pos.x pos.y (28 ^ 2) then false
  else if st.towers.any (fun t => distSq pos ⟨t.x, t.y⟩ < 30 ^ 2) then false
  else decide ((getTowerCfg ty).baseCost ≤ st.money)

/-- `addTower(pos)`: rejected placements return `false` and leave the
state unchanged; a success deducts the base cost and appends one level-1
tower with the next id. -/
def addTower (st : GState) (pos : Pt) (ty : TowerType) : Bool × GState :=
  if canPlaceTower st pos ty then
    let cfg := getTowerCfg ty
    (true,
      { st with money := st.money - cfg.baseCost,
                towers := st.towers ++
                  [{ id := st.nextTowerId, type := ty, x := pos.x, y := pos.y,
                     level := 1, cooldown := 0 }],
                nextTowerId := st.nextTowerId + 1 })
  else (false, st)

/-- The upgrade-button click handler: find the selected tower; reject on
insufficient money; otherwise deduct the cost and bump its level. -/
def upgradeSelected (st : GState) : GState :=
  match st.towers.find? (fun t => st.selectedTowerId = some t.id) with
  | none => st
  | some t =>
    let cost := upgradeCostFor t
    if st.money < cost then st
    else
      { st with money := st.money - cost,
                towers := st.towers.map fun x =>
                  if x.id = t.id then { x with level := x.level + 1 } else x }

/-- The loop's rescheduling condition: `if (state.lives > 0)
requestAnimationFrame(loop)` — a further tick is scheduled exactly when
lives are positive. -/
def loopContinues (st : GState) : Bool := st.lives > 0

/-- `acquireTarget(tower)`: scan all enemies keeping the alive, in-range
one with the largest path progress `s` (initial `bestS = -1`). -/
def acquireTarget (path : Path) (range tx ty : ℚ) (enemies : List Enemy) : Option Enemy :=
  (enemies.foldl
    (fun (acc : Option Enemy × ℚ) e =>
      if e.alive then
        let p := path.posAt e.s
        if distSq ⟨tx, ty⟩ p ≤ range ^ 2 ∧ e.s > acc.2 then (some e, e.s) else acc
      else acc)
    (none, -1)).1

/-- The `sid < bestSpawn` comparison of `acquireFirstSpawned`, where an
unset `spawnId` reads as `Infinity` (`none` here). -/
def sidLt : Option ℕ → Option ℕ → Bool
  | some a, some b => a < b
  | some _, none => true
  | none, _ => false

/-- `acquireFirstSpawned(tower)`: among alive in-range enemies, keep the
one with the smallest `spawnId` (`Infinity` when unset; `bestSpawn`
starts at `Infinity`). -/
def acquireFirstSpawned (path : Path) (range tx ty : ℚ) (enemies : List Enemy) : Option Enemy :=
  (enemies.foldl
    (fun (acc : Option Enemy × Option ℕ) e =>
      if e.alive then
        let p := path.posAt e.s
        if distSq ⟨tx, ty⟩ p ≤ range ^ 2 then
          if sidLt e.spawnId acc.2 then (some e, e.spawnId) else acc
        else acc
      else acc)
    (none, none)).1

/-- The enemy the laser branch of the tower-fire loop aims its beam at:
the source calls `acquireTarget(t)` there (with the laser's doubled
range already folded into `towerStats`). -/
def laserAimOf (path : Path) (enemies : List Enemy) (t : Tower) : Option Enemy :=
  acquireTarget path (towerStats t).range t.x t.y enemies

/-- Exact rendering of the beam-intersection test: the source computes
`u = D/|D|` (with `|D| || 1` so `u = 0` when `D = 0`), the beam end
`E = T + R·u`, and tests `pointSegDist(P, T, E) ≤ c`.  With `R > 0`
(every tower range is) and `c ≥ 0` (thickness `10` plus the enemy radius)
this is equivalent to the following square-root-free case split, writing
`w = P - T`, `ww = |w|²`, `q = w·D`, `dd = |D|²`:
when `D = 0` or `R ≤ 0` the segment degenerates to the point `T` and the
test is `ww ≤ c²`; when `q ≤ 0` the projection clamps to `T`, giving
`ww ≤ c²`; when `q² ≥ R²·dd` it clamps to `E`, and
`|P-E| ≤ c ↔ ww + R² - c² ≤ 2Rq/√dd`, i.e. the left side is `≤ 0` or its
square times `dd` is `≤ 4R²q²` (both sides then positive); otherwise the
projection is interior and `|P-proj|² = ww - q²/dd`. -/
def beamHit (P T D : Pt) (R c : ℚ) : Bool :=
  let dd := D.x ^ 2 + D.y ^ 2
  let wx := P.x - T.x
  let wy := P.y - T.y
  let ww := wx ^ 2 + wy ^ 2
  let q := wx * D.x + wy * D.y
  if dd = 0 ∨ R ≤ 0 then decide (ww ≤ c ^ 2)
  else if q ≤ 0 then decide (ww ≤ c ^ 2)
  else if q ^ 2 ≥ R ^ 2 * dd then
    decide (ww + R ^ 2 - c ^ 2 ≤ 0 ∨ (ww + R ^ 2 - c ^ 2) ^ 2 * dd ≤ 4 * R ^ 2 * q ^ 2)
  else decide (ww - q ^ 2 / dd ≤ c ^ 2)

/-- The `hp` subtraction and kill check shared by every damage site:
subtract `dmg`; if the new `hp` is `≤ 0`, clear `alive` and credit
`reward` (the site's money grant) once. -/
def damageKillStep (dmg : ℚ) (reward : ℤ) (e : Enemy) : Enemy × ℤ :=
  let hp' := e.hp - dmg
  if hp' ≤ 0 then ({ e with hp := hp', alive := false }, reward)
  else ({ e with hp := hp' }, 0)

/-- Map a per-enemy damage function over the enemy list, accumulating the
money grants (the source mutates `state.money` inside the loop). -/
def mapAccumMoney (f : Enemy → Enemy × ℤ) : List Enemy → ℤ → List Enemy × ℤ
  | [], m => ([], m)
  | e :: es, m =>
    let r := f e
    let rest := mapAccumMoney f es (m + r.2)
    (r.1 :: rest.1, rest.2)

/-- The body of the `explodeAt` enemy loop: skip dead enemies and the
excluded primary target; enemies within `radius` of the impact point take
armor-adjusted splash damage and, if killed, credit a flat 5. -/
def explodeEnemyStep (path : Path) (x y dmg radius : ℚ) (excl : Option ℕ)
    (src : TowerType) (e : Enemy) : Enemy × ℤ :=
  if e.alive then
    if excl = some e.eid then (e, 0)
    else
      let ep := path.posAt e.s
      if (ep.x - x) ^ 2 + (ep.y - y) ^ 2 ≤ radius ^ 2 then
        damageKillStep (damageAfterArmor dmg src e) 5 e
      else (e, 0)
  else (e, 0)

/-- `explodeAt(x, y, splashDmg, radius, exclude, sourceType)` (the
particle spawn is rendering-only). -/
def explodeAt (path : Path) (x y dmg radius : ℚ) (excl : Option ℕ) (src : TowerType)
    (enemies : List Enemy) (money : ℤ) : List Enemy × ℤ :=
  if radius ≤ 0 ∨ dmg ≤ 0 then (enemies, money)
  else mapAccumMoney (explodeEnemyStep path x y dmg radius excl src) enemies money

/-- The body of the laser damage loop for one enemy: alive enemies whose
position is within the beam's thickness plus their radius take
`damage × dt` (armor-adjusted) and, if killed, credit `killReward`. -/
def beamEnemyStep (path : Path) (T D : Pt) (R dmgDt : ℚ) (e : Enemy) : Enemy × ℤ :=
  if e.alive then
    let ep := path.posAt e.s
    if beamHit ep T D R (10 + e.r) then
      damageKillStep (damageAfterArmor dmgDt .laser e) (killReward e) e
    else (e, 0)
  else (e, 0)

/-- `shoot(tower, target)`.  The source sets the initial velocity from
`atan2`/`cos`/`sin`, i.e. `speed · (dx, dy)/hypot(dx, dy)`; `rt` models
the square root.  These initial components are overwritten by the homing
update before ever being used. -/
def shoot (rt : ℚ → ℚ) (path : Path) (t : Tower) (target : Enemy) : Projectile :=
  let stats := towerStats t
  let tp := path.posAt target.s
  let dx := tp.x - t.x
  let dy := tp.y - t.y
  let h := rt (dx ^ 2 + dy ^ 2)
  { x := t.x, y := t.y,
    vx := stats.projectileSpeed * dx / h, vy := stats.projectileSpeed * dy / h,
    speed := stats.projectileSpeed, dmg := stats.damage, targetEid := target.eid,
    explosive := t.type = .bomber, splash := stats.splash, sourceType := t.type }

/-- The laser damage loop over all enemies (the beam is piercing): maps
`beamEnemyStep` over the shared enemy list accumulating money. -/
def beamPass (path : Path) (T D : Pt) (R dmgDt : ℚ) (en : List Enemy) (money : ℤ) :
    List Enemy × ℤ :=
  mapAccumMoney (beamEnemyStep path T D R dmgDt) en money

/-- Accumulator for the tower-fire loop: the shared mutable arrays it
reads and writes. -/
structure FireAcc where
  towers : List Tower
  enemies : List Enemy
  projectiles : List Projectile
  money : ℤ
deriving DecidableEq, Repr

/-- One iteration of the `for (const t of state.towers)` firing loop.
Lasers acquire a target (`acquireTarget` — see `laserAimOf`), damage
every enemy the beam intersects, and skip the cooldown logic (`continue`);
projectile towers tick their cooldown and fire at a target when ready
(the beam-record push is rendering-only). -/
def towerFireStep (rt : ℚ → ℚ) (dt : ℚ) (path : Path) (acc : FireAcc) (t : Tower) : FireAcc :=
  let stats := towerStats t
  if t.type = .laser then
    match laserAimOf path acc.enemies t with
    | some target =>
      let tp := path.posAt target.s
      let D : Pt := ⟨tp.x - t.x, tp.y - t.y⟩
      let r := beamPass path ⟨t.x, t.y⟩ D stats.range (stats.damage * dt)
        acc.enemies acc.money
      { acc with towers := acc.towers ++ [t], enemies := r.1, money := r.2 }
    | none => { acc with towers := acc.towers ++ [t] }
  else
    let cd := t.cooldown - dt
    if cd ≤ 0 then
      match acquireTarget path stats.range t.x t.y acc.enemies with
      | some target =>
        { acc with towers := acc.towers ++ [{ t with cooldown := 1 / stats.rate }],
                   projectiles := acc.projectiles ++ [shoot rt path t target] }
      | none => { acc with towers := acc.towers ++ [{ t with cooldown := cd }] }
    else { acc with towers := acc.towers ++ [{ t with cooldown := cd }] }

/-- The towers-fire section of `update`. -/
def towersFirePhase (rt : ℚ → ℚ) (dt : ℚ) (st : GState) : GState :=
  let acc := st.towers.foldl (towerFireStep rt dt st.path)
    { towers := [], enemies := st.enemies, projectiles := st.projectiles, money := st.money }
  { st with towers := acc.towers, enemies := acc.enemies,
            projectiles := acc.projectiles, money := acc.money }

/-- Per-enemy form of the target hp write-back: replace the hp of the
enemy with the given identity, leave everyone else alone. -/
def setHpIf (eid : ℕ) (hp : ℚ) (e : Enemy) : Enemy :=
  if e.eid = eid then { e with hp := hp } else e

/-- Per-enemy form of the target kill mark. -/
def killIf (eid : ℕ) (e : Enemy) : Enemy :=
  if e.eid = eid then { e with alive := false } else e

/-- Write the target's reduced hp back into the enemy list (the source
mutates the referenced object in place). -/
def setEnemyHp (enemies : List Enemy) (eid : ℕ) (hp : ℚ) : List Enemy :=
  enemies.map (setHpIf eid hp)

/-- Mark the enemy with the given identity dead. -/
def killEnemy (enemies : List Enemy) (eid : ℕ) : List Enemy :=
  enemies.map (killIf eid)

/-- The impact block of the projectile loop, acting on the shared enemy
list and money: direct armor-adjusted damage to the referenced target,
then — for explosive payloads — `explodeAt` centred on the target's
position with 60% rounded damage, excluding the target, then the target's
kill check crediting `killReward`.  (Factored out of `projStep`; its
leading target lookup and alive test re-establish the loop context in
which the source runs this block.) -/
def impactOn (path : Path) (tgtEid : ℕ) (dmg : ℚ) (src : TowerType) (explosive : Bool)
    (splash : ℚ) (en : List Enemy) (money : ℤ) : List Enemy × ℤ :=
  match en.find? (fun e => e.eid = tgtEid) with
  | some tgt =>
    if tgt.alive then
      let tp := path.posAt tgt.s
      let hp' := tgt.hp - damageAfterArmor dmg src tgt
      let en1 := setEnemyHp en tgtEid hp'
      let r1 :=
        if explosive then
          explodeAt path tp.x tp.y ((jsRound (dmg * 0.6) : ℤ) : ℚ) splash
            (some tgtEid) src en1 money
        else (en1, money)
      if hp' ≤ 0 then (killEnemy r1.1 tgtEid, r1.2 + killReward tgt) else r1
    else (en, money)
  | none => (en, money)

/-- One iteration of the projectile loop: a live target within 10 units
takes the direct hit (then splash for explosive payloads, excluding the
target, then the target's kill check — see `impactOn`); otherwise the
projectile homes at `speed` toward the target's current position; a lost
target discards the projectile; off-bounds projectiles are discarded. -/
def projStep (rt : ℚ → ℚ) (path : Path) (dt : ℚ) (en : List Enemy) (money : ℤ)
    (p : Projectile) : Projectile × List Enemy × ℤ :=
  let step : Projectile × List Enemy × ℤ :=
    match en.find? (fun e => e.eid = p.targetEid) with
    | some tgt =>
      if tgt.alive then
        let tp := path.posAt tgt.s
        let dx := tp.x - p.x
        let dy := tp.y - p.y
        let dSq := dx ^ 2 + dy ^ 2
        if dSq ≤ 10 ^ 2 then
          ({ p with dead := true },
            impactOn path p.targetEid p.dmg p.sourceType p.explosive p.splash en money)
        else
          let d := rt dSq
          let v := if p.speed = 0 then 420 else p.speed
          let den := if d = 0 then 1 else d
          let vx := dx / den * v
          let vy := dy / den * v
          ({ p with vx := vx, vy := vy, x := p.x + vx * dt, y := p.y + vy * dt },
            en, money)
      else ({ p with dead := true }, en, money)
    | none => ({ p with dead := true }, en, money)
  let p1 := step.1
  let p2 :=
    if p1.x < -20 ∨ p1.x > CANVAS_W + 20 ∨ p1.y < -20 ∨ p1.y > CANVAS_H + 20 then
      { p1 with dead := true }
    else p1
  (p2, step.2)

/-- The projectile section of `update`, including the final
`filter(p => !p.dead)`. -/
def projectilePhase (rt : ℚ → ℚ) (dt : ℚ) (st : GState) : GState :=
  let r := st.projectiles.foldl
    (fun (a : List Projectile × List Enemy × ℤ) p =>
      let s := projStep rt st.path dt a.2.1 a.2.2 p
      (a.1 ++ [s.1], s.2))
    ([], st.enemies, st.money)
  { st with projectiles := r.1.filter (fun p => ¬ p.dead),
            enemies := r.2.1, money := r.2.2 }

/-- One enemy's advance along the path: alive enemies gain
`speed × mul × dt` of arc length; reaching the path end marks them dead
and reports a leak (a lost life). -/
def moveEnemyStep (pathLen mul dt : ℚ) (e : Enemy) : Enemy × Bool :=
  if e.alive then
    let s' := e.s + e.speed * mul * dt
    if s' ≥ pathLen then ({ e with s := s', alive := false }, true)
    else ({ e with s := s' }, false)
  else (e, false)

/-- The enemy-movement section with the speed multiplier explicit: move
every enemy, deduct a life per leak, and prune enemies past the 40-unit
grace margin (the game-over modal display is a DOM effect). -/
def movePhaseMul (mul dt : ℚ) (st : GState) : GState :=
  let stepped := st.enemies.map (moveEnemyStep st.path.length mul dt)
  { st with
    enemies := (stepped.map Prod.fst).filter
      (fun e => e.alive ∨ e.s < st.path.length + 40),
    lives := st.lives - (stepped.filter Prod.snd).length }

/-- The enemy-movement section of `update`:
`const speedMul = state.turbo ? 2 : 1` — the only read of the turbo flag
in the whole tick. -/
def movePhase (dt : ℚ) (st : GState) : GState :=
  movePhaseMul (if st.turbo then 2 else 1) dt st

/-- The `while (queue.length > 0 && spawnElapsed >= interval)` drain:
returns the remaining queue, the remaining elapsed accumulator, and the
dequeued records in spawn order. -/
def spawnDrain (interval : ℚ) : List SpawnRec → ℚ → List SpawnRec × ℚ × List SpawnRec
  | [], el => ([], el, [])
  | r :: q, el =>
    if el ≥ interval then
      let rest := spawnDrain interval q (el - interval)
      (rest.1, rest.2.1, r :: rest.2.2)
    else (r :: q, el, [])

/-- The spawning / wave-completion section of `update` (runs only while
`inWave`): accumulate `dt`, drain due spawns, then — if the queue is
empty and every enemy is dead — award the completion reward, then the 3%
balance bonus, record the overlay summary, arm the auto-wave timer, and
advance the wave index. -/
def spawnPhase (dt : ℚ) (st : GState) : GState :=
  if st.inWave then
    let d := spawnDrain st.spawnInterval st.spawnQueue (st.spawnElapsed + dt)
    let st1 := d.2.2.foldl (fun s r => spawnEnemy s r.hp r.speed r.type)
      { st with spawnQueue := d.1, spawnElapsed := d.2.1 }
    if st1.spawnQueue = [] ∧ st1.enemies.all (fun e => ¬ e.alive) then
      let reward := completionReward st1.waveIndex
      let m1 := st1.money + reward
      let bonus := jsRound ((m1 : ℚ) * 0.03)
      { st1 with inWave := false, money := m1 + bonus,
                 overlay := { visible := true, earned := reward, bonus := some bonus,
                              completedWave := st1.waveIndex + 1 },
                 nextWaveTimer := if st1.autoWave then 5 else 0,
                 waveIndex := st1.waveIndex + 1 }
    else st1
  else st

/-- The auto-wave countdown section of `update`: while idle with the
timer armed, count down and start the next wave on expiry. -/
def autoWavePhase (dt : ℚ) (st : GState) : GState :=
  if ¬ st.inWave ∧ st.autoWave then
    if (st.spawnQueue = [] ∧ st.enemies.all fun e => ¬ e.alive) ∧ st.nextWaveTimer > 0 then
      let timer := st.nextWaveTimer - dt
      if timer ≤ 0 then startWave { st with nextWaveTimer := timer }
      else { st with nextWaveTimer := timer }
    else st
  else st

/-- `state.time += dt` at the top of `update`. -/
def tickTime (dt : ℚ) (st : GState) : GState := { st with time := st.time + dt }

/-- `update(dt)`: the per-tick pipeline in source order — advance time,
spawn/complete waves, move enemies (the only turbo-sensitive step), fire
towers, advance/resolve projectiles, run the auto-wave countdown.
Particle updates and the game-over modal are rendering-only. -/
def update (rt : ℚ → ℚ) (dt : ℚ) (st : GState) : GState :=
  autoWavePhase dt
    (projectilePhase rt dt
      (towersFirePhase rt dt
        (movePhase dt
          (spawnPhase dt
            (tickTime dt st)))))

/-- One damage-resolution event acting on the shared enemy list and
money balance: one laser tower's beam pass, one splash explosion, or one
projectile's direct impact (a verification harness over the three damage
sites of the source; `opApply` dispatches to the site functions used by
the update pipeline itself). -/
inductive CombatOp
  | beam (T D : Pt) (R dmgDt : ℚ)
  | splash (x y dmg radius : ℚ) (excl : Option ℕ) (src : TowerType)
  | impact (tgtEid : ℕ) (dmg : ℚ) (src : TowerType) (explosive : Bool) (splashR : ℚ)
deriving DecidableEq, Repr

/-- Apply one damage-resolution event, dispatching to the source-derived
site functions. -/
def opApply (path : Path) : CombatOp → List Enemy × ℤ → List Enemy × ℤ
  | .beam T D R dmgDt, s => beamPass path T D R dmgDt s.1 s.2
  | .splash x y dmg radius excl src, s => explodeAt path x y dmg radius excl src s.1 s.2
  | .impact tgtEid dmg src explosive splashR, s =>
    impactOn path tgtEid dmg src explosive splashR s.1 s.2

/-- Whether the enemy at position `i` of the list is currently alive
(false when out of range). -/
def aliveAt (en : List Enemy) (i : ℕ) : Bool :=
  match en[i]? with
  | some e => e.alive
  | none => false

/-- Whether applying `op` kills the enemy at position `i`: alive before,
dead after. -/
def killedAt (path : Path) (op : CombatOp) (s : List Enemy × ℤ) (i : ℕ) : Bool :=
  aliveAt s.1 i && ! aliveAt (opApply path op s).1 i

/-- How many events of a sequence kill the enemy at position `i`, with
the state threaded through the sequence. -/
def killCount (path : Path) (s : List Enemy × ℤ) (i : ℕ) : List CombatOp → ℕ
  | [] => 0
  | op :: ops =>
    (if killedAt path op s i then 1 else 0) + killCount path (opApply path op s) i ops

/-- The money an event grants for killing a given enemy: `killReward` for
a beam kill, a flat 5 for a splash kill, and for a projectile impact
`killReward` for the referenced target but a flat 5 for bystanders caught
in its explosion. -/
def opReward : CombatOp → Enemy → ℤ
  | .beam _ _ _ _, e => killReward e
  | .splash _ _ _ _ _ _, _ => 5
  | .impact tgtEid _ _ _ _, e => if e.eid = tgtEid then killReward e else 5

/-- The per-kill money attribution of one event: summing, over enemies
paired with their post-event versions, the event's reward for exactly
those it killed. -/
def opKillSum (path : Path) (op : CombatOp) (s : List Enemy × ℤ) : ℤ :=
  ((s.1.zip (opApply path op s).1).map fun pr =>
    if pr.1.alive && ! pr.2.alive then opReward op pr.1 else 0).sum

/-- Chainedness of a segment list: cumulative offsets continue from the
given start, each segment's `acc` being the previous accumulated length
(the invariant established by the `Path` constructor loop). -/
def SegsChained : ℚ → List Seg → Prop
  | _, [] => True
  | c, sg :: rest => sg.acc = c ∧ SegsChained (sg.acc + sg.len) rest

/-- The taxicab length `|Δx| + |Δy|`, a concrete length function that is
non-negative and vanishes only on equal points; used to instantiate the
`hyp` parameter in examples. -/
def taxiLen (a b : Pt) : ℚ := |b.x - a.x| + |b.y - a.y|

/-- The initial `state` literal (with the default path built by `init`),
used as a concrete state for the examples below. -/
def exState : GState :=
  { money := 120, lives := 20, waveIndex := 0, inWave := false, time := 0,
    path := createDefaultPath, towers := [], enemies := [], projectiles := [],
    spawnQueue := [], spawnInterval := 0, spawnElapsed := 0,
    selectedTowerId := none, autoWave := false, nextWaveTimer := 0,
    overlay := { visible := false, earned := 0, bonus := none, completedWave := 0 },
    turbo := false, nextTowerId := 1, nextEid := 1 }

/-- A straight east-west example path of length 300 (axis-aligned, so
`axisLen` is the exact `Math.hypot` segment length). -/
def exPath : Path := mkPath axisLen [⟨0, 0⟩, ⟨300, 0⟩]

/-- An example laser tower at the origin (stats range 240 after the laser
doubling). -/
def exLaser : Tower := { id := 1, type := .laser, x := 0, y := 0, level := 1, cooldown := 0 }

/-- An example: the first-spawned enemy (`eid` 1), 10 units along the
path. -/
def exEnemyA : Enemy := { mkEnemy 1 30 70 .normal with s := 10 }

/-- An example: the second-spawned enemy (`eid` 2), 50 units along the
path — further progressed than `exEnemyA`. -/
def exEnemyB : Enemy := { mkEnemy 2 30 70 .normal with s := 50 }

/-- An example basic tower at level 1. -/
def exTowerB : Tower := { id := 1, type := .basic, x := 480, y := 250, level := 1, cooldown := 0 }

/-- An example non-boss enemy (`eid` 3) with maximum hp 200 worn down to
1 hp, sitting at the path start; its kill reward is
`max(5, round(0.08·200)) = 16`. -/
def exEnemyS : Enemy := { mkEnemy 3 200 70 .normal with hp := 1 }

/-- The initial state with `exTowerB` placed and selected. -/
def exStateU : GState :=
  { exState with towers := [exTowerB], selectedTowerId := some 1 }

/-- A state in the middle of wave 1 with an empty spawn queue and a
single dead enemy on the field with 100 money — the configuration in
which the wave-completion transition fires on the next tick. -/
def exStateW : GState :=
  { exState with inWave := true, money := 100, spawnInterval := 7/10,
                 enemies := [{ mkEnemy 1 24 70 .normal with hp := 0, alive := false }] }

section
unseal Rat.add Rat.sub Rat.mul Rat.inv Rat.ofScientific

/-- C7: for every wave index `n ≥ 0` the wave parameters are
`hp = round(24·1.22^n)`, `count = round(12 + min(40, 2.5·n))`,
`speed = min(140, 70 + 2·n)` and `gap = max(0.33, 0.7 − 0.02·n)`;
in particular wave index 0 yields count 12, hp 24, speed 70, gap 0.7. -/
theorem waveFor_formulas (n : ℕ) :
    waveFor n =
      { hp := jsRound (24 * (1.22 : ℚ) ^ n),
        count := jsRound ((12 : ℚ) + min 40 ((n : ℚ) * 2.5)),
        speed := min 140 ((70 : ℚ) + (n : ℚ) * 2),
        gap := max 0.33 ((0.7 : ℚ) - (n : ℚ) * 0.02) } ∧
    waveFor 0 = { count := 12, hp := 24, speed := 70, gap := 0.7 } := by
  refine ⟨?_, by decide⟩
  unfold waveFor
  push_cast [Nat.add_sub_cancel]
  ring_nf

/-- C3 counterexample: in the concrete initial state with the life
counter at 0 (game over, loop no longer rescheduled) and no reset, the
tower-placement input still succeeds and changes the simulation state
(money drops from 120 to 70 and a tower is appended) — gameplay input is
not ignored. -/
theorem gameover_input_counterexample :
    loopContinues { exState with lives := 0 } = false ∧
    (addTower { exState with lives := 0 } ⟨480, 250⟩ .basic).1 = true ∧
    (addTower { exState with lives := 0 } ⟨480, 250⟩ .basic).2.money = 70 ∧
    (addTower { exState with lives := 0 } ⟨480, 250⟩ .basic).2.towers.length = 1 ∧
    exState.money = 120 := by
  decide

/-- C3 amended: once the life counter is 0 or below the frame loop stops
scheduling further ticks, but gameplay input actions are not ignored —
wave start, tower upgrade and tower placement read and write the state
identically for every value of the life counter (none of them consults
lives). -/
theorem gameover_stops_loop_not_inputs (st : GState) (l : ℤ) (pos : Pt) (ty : TowerType) :
    (loopContinues st = false ↔ st.lives ≤ 0) ∧
    startWave { st with lives := l } = { startWave st with lives := l } ∧
    upgradeSelected { st with lives := l } = { upgradeSelected st with lives := l } ∧
    (addTower { st with lives := l } pos ty).1 = (addTower st pos ty).1 ∧
    (addTower { st with lives := l } pos ty).2 = { (addTower st pos ty).2 with lives := l } := by
  have hcc : canPlaceTower { st with lives := l } pos ty = canPlaceTower st pos ty := rfl
  refine ⟨?_, ?_, ?_, ?_, ?_⟩
  · simp [loopContinues]
  · by_cases h : st.inWave <;> simp [startWave, h]
  · unfold upgradeSelected
    cases hf : st.towers.find? (fun t => st.selectedTowerId = some t.id) with
    | none => simp [hf]
    | some t => by_cases hm : st.money < upgradeCostFor t <;> simp [hf, hm]
  · unfold addTower
    rw [hcc]
    by_cases hc : canPlaceTower st pos ty <;> simp [hc]
  · unfold addTower
    rw [hcc]
    by_cases hc : canPlaceTower st pos ty <;> simp [hc]

/-- C8: a basic tower below the level cap of 6 has upgrade cost
`round(60·1.6^(L−1))`; at or above the cap the flat cost 1000 applies and
the handler still levels the tower up; with money ≥ cost the handler
deducts exactly the cost and increments exactly the selected tower's
level by 1, and with money < cost it leaves the state unchanged. -/
theorem upgrade_cost_and_apply (st : GState) (t : Tower)
    (hfind : st.towers.find? (fun x => st.selectedTowerId = some x.id) = some t)
    (hlvl : 1 ≤ t.level) :
    (t.type = .basic → t.level < 6 →
      upgradeCostFor t = jsRound (60 * (1.6 : ℚ) ^ (t.level - 1))) ∧
    (6 ≤ t.level → upgradeCostFor t = 1000) ∧
    (upgradeCostFor t ≤ st.money →
      (upgradeSelected st).money = st.money - upgradeCostFor t ∧
      ∀ i : ℕ, (upgradeSelected st).towers[i]? =
        st.towers[i]?.map fun x =>
          if x.id = t.id then { x with level := x.level + 1 } else x) ∧
    (st.money < upgradeCostFor t → upgradeSelected st = st) := by
  have hlz : ¬ t.level = 0 := by omega
  refine ⟨?_, ?_, ?_, ?_⟩
  · intro hb hcap
    simp [upgradeCostFor, hlz, hb, getTowerCfg, BASIC_TOWER, upgradeCost]
    omega
  · intro hcap
    have : (if t.level = 0 then 1 else t.level) ≥ (getTowerCfg t.type).maxLevel := by
      cases t.type <;> simp [getTowerCfg, BASIC_TOWER, BOMBER_TOWER, LASER_TOWER, hlz] <;> omega
    simp [upgradeCostFor, this]
  · intro hm
    unfold upgradeSelected
    rw [hfind]
    simp only [not_lt.mpr hm, if_neg (by omega : ¬ st.money < upgradeCostFor t)]
    exact ⟨rfl, fun i => by simp [List.getElem?_map]⟩
  · intro hm
    unfold upgradeSelected
    rw [hfind]
    simp [hm]

/-- Witness for C8 at the concrete selected level-1 basic tower with 120
money: the cost is `round(60·1.6^0) = 60`, the upgrade deducts it and
bumps the level to 2. -/
theorem upgrade_cost_and_apply_witness :
    upgradeCostFor exTowerB = jsRound (60 * (1.6 : ℚ) ^ (exTowerB.level - 1)) ∧
    (upgradeSelected exStateU).money = exStateU.money - upgradeCostFor exTowerB ∧
    (upgradeSelected exStateU).towers[0]? = some { exTowerB with level := 2 } := by
  have h := upgrade_cost_and_apply exStateU exTowerB (by decide) (by decide)
  refine ⟨h.1 (by decide) (by decide), (h.2.2.1 (by decide)).1, ?_⟩
  rw [(h.2.2.1 (by decide)).2 0]
  decide

/-- C4: a placement is legal exactly when all four checks hold — the
position lies in the inset rectangle, is at least 28 from every path
segment, at least 30 from every existing tower, and the base cost is
affordable; a legal `addTower` deducts exactly the base cost and appends
exactly one tower; an illegal one returns false with the state
unchanged. -/
theorem addTower_place_spec (st : GState) (pos : Pt) (ty : TowerType) :
    (canPlaceTower st pos ty = true ↔
      ((20 ≤ pos.x ∧ pos.x ≤ CANVAS_W - 20 ∧ 20 ≤ pos.y ∧ pos.y ≤ CANVAS_H - 20) ∧
       (∀ sg ∈ st.path.segs,
          28 ^ 2 ≤ pointSegDistSq pos.x pos.y sg.a.x sg.a.y sg.b.x sg.b.y) ∧
       (∀ t ∈ st.towers, 30 ^ 2 ≤ distSq pos ⟨t.x, t.y⟩) ∧
       (getTowerCfg ty).baseCost ≤ st.money)) ∧
    (canPlaceTower st pos ty = true →
      addTower st pos ty =
        (true,
          { st with money := st.money - (getTowerCfg ty).baseCost,
                    towers := st.towers ++
                      [{ id := st.nextTowerId, type := ty, x := pos.x, y := pos.y,
                         level := 1, cooldown := 0 }],
                    nextTowerId := st.nextTowerId + 1 })) ∧
    (canPlaceTower st pos ty = false → addTower st pos ty = (false, st)) := by
  refine ⟨?_, ?_, ?_⟩
  · unfold canPlaceTower Path.minDistLtSq
    split_ifs with h1 h2 h3
    · simp only [Bool.false_eq_true, false_iff]
      rintro ⟨⟨b1, b2, b3, b4⟩, -, -, -⟩
      rcases h1 with h | h | h | h <;> linarith
    · simp only [Bool.false_eq_true, false_iff]
      rw [List.any_eq_true] at h2
      obtain ⟨sg, hsg, hlt⟩ := h2
      rintro ⟨-, hpath, -, -⟩
      have := hpath sg hsg
      rw [decide_eq_true_iff] at hlt
      linarith
    · simp only [Bool.false_eq_true, false_iff]
      rw [List.any_eq_true] at h3
      obtain ⟨t, ht, hlt⟩ := h3
      rintro ⟨-, -, htw, -⟩
      have := htw t ht
      rw [decide_eq_true_iff] at hlt
      linarith
    · push_neg at h1
      rw [Bool.not_eq_true] at h2 h3
      rw [List.any_eq_false] at h2 h3
      simp only [decide_eq_true_iff]
      constructor
      · intro hm
        refine ⟨⟨h1.1, h1.2.1, h1.2.2.1, h1.2.2.2⟩, ?_, ?_, hm⟩
        · intro sg hsg
          have := h2 sg hsg
          simp only [decide_eq_true_iff] at this
          exact not_lt.mp this
        · intro t ht
          have := h3 t ht
          simp only [decide_eq_true_iff] at this
          exact not_lt.mp this
      · rintro ⟨-, -, -, hm⟩
        exact hm
  · intro hc
    simp [addTower, hc]
  · intro hc
    simp [addTower, hc]

/-- Witness for C4: in the concrete initial state, placing a basic tower
at (480, 250) succeeds, leaving exactly 70 money and exactly one tower;
the same position with only 10 money is rejected and changes nothing. -/
theorem addTower_place_spec_witness :
    addTower exState ⟨480, 250⟩ .basic =
      (true, { exState with money := 70, towers := [exTowerB], nextTowerId := 2 }) ∧
    addTower { exState with money := 10 } ⟨480, 250⟩ .basic =
      (false, { exState with money := 10 }) := by
  constructor
  · have h := (addTower_place_spec exState ⟨480, 250⟩ .basic).2.1 (by decide)
    rw [h]
    decide
  · exact (addTower_place_spec { exState with money := 10 } ⟨480, 250⟩ .basic).2.2 (by decide)

/-- C1 counterexample: a splash (`explodeAt`) kill of an alive enemy with
maximum hp 200 (worn to 1 hp) increases money by the flat 5 and not by
the enemy's kill reward `round(0.08·200) = 16`. -/
theorem splash_reward_counterexample :
    (explodeAt exPath 0 0 10 50 none .bomber [exEnemyS] 0).2 = 5 ∧
    ((explodeAt exPath 0 0 10 50 none .bomber [exEnemyS] 0).1.all fun e => ¬ e.alive) = true ∧
    exEnemyS.alive = true ∧
    killReward exEnemyS = 16 ∧
    (5 : ℤ) ≠ 16 := by
  decide

/-- C1 amended: an enemy killed by a projectile's direct impact or by
beam damage credits exactly its kill reward — flat 500 for bosses,
otherwise `max(5, round(0.08·maxHp))` — but an enemy killed by splash
area damage credits a flat 5 instead of its kill reward. -/
theorem kill_reward_per_site (path : Path) (T D : Pt) (R dmgDt x y dmg radius : ℚ)
    (excl : Option ℕ) (src : TowerType) (e : Enemy)
    (tgtEid : ℕ) (pdmg : ℚ) (psrc : TowerType) (en : List Enemy) (m : ℤ) (tgt : Enemy) :
    killReward e = (if e.boss then 500 else max 5 (jsRound (e.maxHp * 0.08))) ∧
    (e.alive = true → (beamEnemyStep path T D R dmgDt e).1.alive = false →
      (beamEnemyStep path T D R dmgDt e).2 = killReward e) ∧
    (e.alive = true → (explodeEnemyStep path x y dmg radius excl src e).1.alive = false →
      (explodeEnemyStep path x y dmg radius excl src e).2 = 5) ∧
    (en.find? (fun e2 => e2.eid = tgtEid) = some tgt → tgt.alive = true →
      tgt.hp - damageAfterArmor pdmg psrc tgt ≤ 0 →
      (impactOn path tgtEid pdmg psrc false 0 en m).2 = m + killReward tgt) := by
  refine ⟨rfl, ?_, ?_, ?_⟩
  · intro ha hd
    by_cases hbh : beamHit (path.posAt e.s) T D R (10 + e.r) = true
    · by_cases hk : e.hp - damageAfterArmor dmgDt .laser e ≤ 0
      · simp [beamEnemyStep, ha, hbh, damageKillStep, hk]
      · simp [beamEnemyStep, ha, hbh, damageKillStep, hk] at hd
    · simp [beamEnemyStep, ha, hbh] at hd
  · intro ha hd
    by_cases hex : excl = some e.eid
    · simp [explodeEnemyStep, ha, hex] at hd
    · by_cases hin : ((path.posAt e.s).x - x) ^ 2 + ((path.posAt e.s).y - y) ^ 2 ≤ radius ^ 2
      · by_cases hk : e.hp - damageAfterArmor dmg src e ≤ 0
        · simp [explodeEnemyStep, ha, hex, hin, damageKillStep, hk]
        · simp [explodeEnemyStep, ha, hex, hin, damageKillStep, hk] at hd
      · simp [explodeEnemyStep, ha, hex, hin] at hd
  · intro hfind ha hkill
    simp [impactOn, hfind, ha, hkill]

/-- Witness for C1 amended: a beam kill of `exEnemyS` credits its kill
reward 16, a splash kill credits 5, and a non-explosive projectile impact
kill credits exactly the kill reward. -/
theorem kill_reward_per_site_witness :
    (beamEnemyStep exPath ⟨0, 0⟩ ⟨1, 0⟩ 240 30 exEnemyS).2 = killReward exEnemyS ∧
    (explodeEnemyStep exPath 0 0 10 50 none .bomber exEnemyS).2 = 5 ∧
    (impactOn exPath 3 12 .basic false 0 [exEnemyS] 0).2 = 0 + killReward exEnemyS := by
  have h := kill_reward_per_site exPath ⟨0, 0⟩ ⟨1, 0⟩ 240 30 0 0 10 50 none .bomber exEnemyS
    3 12 .basic [exEnemyS] 0 exEnemyS
  exact ⟨h.2.1 (by decide) (by decide), h.2.2.1 (by decide) (by decide),
    h.2.2.2 (by decide) (by decide) (by decide)⟩

/-- Invariant of the `acquireTarget` fold: starting from any accumulator,
the result is the accumulator itself or an eligible (alive, in-range)
enemy of the list paired with its progress; the best-progress component
never decreases; and every eligible enemy's progress is bounded by the
final best-progress component. -/
theorem acquireTarget_fold_spec (path : Path) (range tx ty : ℚ) :
    ∀ (L : List Enemy) (acc : Option Enemy × ℚ),
      (L.foldl
          (fun (acc : Option Enemy × ℚ) e =>
            if e.alive then
              let p := path.posAt e.s
              if distSq ⟨tx, ty⟩ p ≤ range ^ 2 ∧ e.s > acc.2 then (some e, e.s) else acc
            else acc)
          acc = acc ∨
        ∃ e ∈ L, (e.alive = true ∧ distSq ⟨tx, ty⟩ (path.posAt e.s) ≤ range ^ 2) ∧
          L.foldl
            (fun (acc : Option Enemy × ℚ) e =>
              if e.alive then
                let p := path.posAt e.s
                if distSq ⟨tx, ty⟩ p ≤ range ^ 2 ∧ e.s > acc.2 then (some e, e.s) else acc
              else acc)
            acc = (some e, e.s)) ∧
      acc.2 ≤ (L.foldl
          (fun (acc : Option Enemy × ℚ) e =>
            if e.alive then
              let p := path.posAt e.s
              if distSq ⟨tx, ty⟩ p ≤ range ^ 2 ∧ e.s > acc.2 then (some e, e.s) else acc
            else acc)
          acc).2 ∧
      ∀ e2 ∈ L, e2.alive = true → distSq ⟨tx, ty⟩ (path.posAt e2.s) ≤ range ^ 2 →
        e2.s ≤ (L.foldl
          (fun (acc : Option Enemy × ℚ) e =>
            if e.alive then
              let p := path.posAt e.s
              if distSq ⟨tx, ty⟩ p ≤ range ^ 2 ∧ e.s > acc.2 then (some e, e.s) else acc
            else acc)
          acc).2 := by
  intro L
  induction L with
  | nil => exact fun acc => ⟨Or.inl rfl, le_refl _, by simp⟩
  | cons x xs ih =>
    intro acc
    simp only [List.foldl_cons]
    by_cases hx : x.alive = true
    · by_cases hc : distSq ⟨tx, ty⟩ (path.posAt x.s) ≤ range ^ 2 ∧ x.s > acc.2
      · have hstep : (if x.alive then
            if distSq ⟨tx, ty⟩ (path.posAt x.s) ≤ range ^ 2 ∧ x.s > acc.2 then (some x, x.s)
            else acc
          else acc) = (some x, x.s) := by simp [hx, hc]
        rw [hstep]
        obtain ⟨ihd, ihm, ihb⟩ := ih (some x, x.s)
        refine ⟨?_, le_trans (le_of_lt hc.2) ihm, ?_⟩
        · rcases ihd with h | ⟨e, he, hel, heq⟩
          · exact Or.inr ⟨x, List.mem_cons_self x xs, ⟨hx, hc.1⟩, h⟩
          · exact Or.inr ⟨e, List.mem_cons_of_mem x he, hel, heq⟩
        · intro e2 he2 ha2 hr2
          rcases List.mem_cons.mp he2 with rfl | hmem
          · exact le_trans (le_refl e2.s) ihm
          · exact ihb e2 hmem ha2 hr2
      · have hstep : (if x.alive then
            if distSq ⟨tx, ty⟩ (path.posAt x.s) ≤ range ^ 2 ∧ x.s > acc.2 then (some x, x.s)
            else acc
          else acc) = acc := by simp [hx, hc]
        rw [hstep]
        obtain ⟨ihd, ihm, ihb⟩ := ih acc
        refine ⟨?_, ihm, ?_⟩
        · rcases ihd with h | ⟨e, he, hel, heq⟩
          · exact Or.inl h
          · exact Or.inr ⟨e, List.mem_cons_of_mem x he, hel, heq⟩
        · intro e2 he2 ha2 hr2
          rcases List.mem_cons.mp he2 with rfl | hmem
          · have hns : ¬ e2.s > acc.2 := fun hgt => hc ⟨hr2, hgt⟩
            exact le_trans (not_lt.mp hns) ihm
          · exact ihb e2 hmem ha2 hr2
    · have hstep : (if x.alive then
          if distSq ⟨tx, ty⟩ (path.posAt x.s) ≤ range ^ 2 ∧ x.s > acc.2 then (some x, x.s)
          else acc
        else acc) = acc := by simp [hx]
      rw [hstep]
      obtain ⟨ihd, ihm, ihb⟩ := ih acc
      refine ⟨?_, ihm, ?_⟩
      · rcases ihd with h | ⟨e, he, hel, heq⟩
        · exact Or.inl h
        · exact Or.inr ⟨e, List.mem_cons_of_mem x he, hel, heq⟩
      · intro e2 he2 ha2 hr2
        rcases List.mem_cons.mp he2 with rfl | hmem
        · exact absurd ha2 hx
        · exact ihb e2 hmem ha2 hr2

/-- The `acquireFirstSpawned` fold can never select an enemy whose
`spawnId` is unset (`sid < bestSpawn` is false when `sid` reads as
`Infinity`), so from the initial accumulator it returns the accumulator
unchanged. -/
theorem acquireFirstSpawned_fold_none (path : Path) (range tx ty : ℚ) :
    ∀ (L : List Enemy) (acc : Option Enemy × Option ℕ), (∀ e2 ∈ L, e2.spawnId = none) →
      acc.2 = none →
      L.foldl
        (fun (acc : Option Enemy × Option ℕ) e =>
          if e.alive then
            let p := path.posAt e.s
            if distSq ⟨tx, ty⟩ p ≤ range ^ 2 then
              if sidLt e.spawnId acc.2 then (some e, e.spawnId) else acc
            else acc
          else acc)
        acc = acc := by
  intro L
  induction L with
  | nil => intro acc _ _; rfl
  | cons x xs ih =>
    intro acc hids hacc
    have hx : x.spawnId = none := hids x (List.mem_cons_self x xs)
    have hstep : (if x.alive then
        if distSq ⟨tx, ty⟩ (path.posAt x.s) ≤ range ^ 2 then
          if sidLt x.spawnId acc.2 then (some x, x.spawnId) else acc
        else acc
      else acc) = acc := by
      rw [hx, hacc]
      simp [sidLt]
    rw [List.foldl_cons, hstep]
    exact ih acc (fun e2 he2 => hids e2 (List.mem_cons_of_mem x he2)) hacc

/-- C2 counterexample: a laser tower at the origin with two alive
in-range enemies — `exEnemyA` spawned first (identity 1, progress 10) and
`exEnemyB` spawned second (identity 2, progress 50) — aims its beam at
`exEnemyB`, the furthest-progressed, not at the oldest `exEnemyA`; and
`acquireFirstSpawned` (never called by the update loop) would return
nothing anyway, since `spawnEnemy` never assigns spawn ids. -/
theorem laser_target_counterexample :
    laserAimOf exPath [exEnemyA, exEnemyB] exLaser = some exEnemyB ∧
    exEnemyB ≠ exEnemyA ∧
    exEnemyA.alive = true ∧
    distSq ⟨exLaser.x, exLaser.y⟩ (exPath.posAt exEnemyA.s) ≤ (towerStats exLaser).range ^ 2 ∧
    acquireFirstSpawned exPath (towerStats exLaser).range exLaser.x exLaser.y
      [exEnemyA, exEnemyB] = none := by
  decide

/-- C2 amended: the enemy the beam of a laser tower is aimed at on a tick
is acquired with the same furthest-progressed policy as every other
tower: when the laser branch locks a target, that target is an alive,
in-range enemy whose path progress is maximal among all alive in-range
enemies; the first-spawned acquisition function exists in the source but
is never called by the update loop, and it returns nothing for enemies
produced by `spawnEnemy`, which never assigns `spawnId`. -/
theorem laser_aims_furthest (path : Path) (enemies : List Enemy) (t : Tower) (e : Enemy)
    (h : laserAimOf path enemies t = some e) :
    (e ∈ enemies ∧ e.alive = true ∧
      distSq ⟨t.x, t.y⟩ (path.posAt e.s) ≤ (towerStats t).range ^ 2 ∧
      ∀ e2 ∈ enemies, e2.alive = true →
        distSq ⟨t.x, t.y⟩ (path.posAt e2.s) ≤ (towerStats t).range ^ 2 → e2.s ≤ e.s) ∧
    (∀ (range tx ty : ℚ) (es : List Enemy), (∀ e2 ∈ es, e2.spawnId = none) →
      acquireFirstSpawned path range tx ty es = none) := by
  constructor
  · have hspec := acquireTarget_fold_spec path (towerStats t).range t.x t.y enemies (none, -1)
    obtain ⟨hd, hm, hb⟩ := hspec
    unfold laserAimOf acquireTarget at h
    rcases hd with heq | ⟨e3, he3, hel3, heq3⟩
    · rw [heq] at h
      exact absurd h (by simp)
    · rw [heq3] at h
      obtain rfl : e3 = e := by simpa using h
      refine ⟨he3, hel3.1, hel3.2, ?_⟩
      intro e2 he2 ha2 hr2
      have := hb e2 he2 ha2 hr2
      rw [heq3] at this
      exact this
  · intro range tx ty es hids
    unfold acquireFirstSpawned
    rw [acquireFirstSpawned_fold_none path range tx ty es (none, none) hids rfl]

/-- Witness for C2 amended at the concrete two-enemy state: the locked
target `exEnemyB` is alive, a member, and at least as far along as the
older in-range `exEnemyA`; `acquireFirstSpawned` returns nothing there. -/
theorem laser_aims_furthest_witness :
    exEnemyB ∈ [exEnemyA, exEnemyB] ∧ exEnemyB.alive = true ∧
    exEnemyA.s ≤ exEnemyB.s ∧
    acquireFirstSpawned exPath 240 0 0 [exEnemyA, exEnemyB] = none := by
  have h := laser_aims_furthest exPath [exEnemyA, exEnemyB] exLaser exEnemyB (by decide)
  exact ⟨h.1.1, h.1.2.1, h.1.2.2.2 exEnemyA (by decide) (by decide) (by decide),
    h.2 240 0 0 [exEnemyA, exEnemyB] (by decide)⟩

/-- Folding `spawnEnemy` over a list of spawn records only appends
enemies and advances the identity counter; money, wave index, wave flag,
queue, elapsed accumulator and auto-wave flag are untouched. -/
theorem spawnEnemy_foldl_fields (rs : List SpawnRec) :
    ∀ st : GState,
      (rs.foldl (fun s r => spawnEnemy s r.hp r.speed r.type) st).money = st.money ∧
      (rs.foldl (fun s r => spawnEnemy s r.hp r.speed r.type) st).waveIndex = st.waveIndex ∧
      (rs.foldl (fun s r => spawnEnemy s r.hp r.speed r.type) st).inWave = st.inWave ∧
      (rs.foldl (fun s r => spawnEnemy s r.hp r.speed r.type) st).spawnQueue = st.spawnQueue ∧
      (rs.foldl (fun s r => spawnEnemy s r.hp r.speed r.type) st).autoWave = st.autoWave ∧
      (rs.foldl (fun s r => spawnEnemy s r.hp r.speed r.type) st).turbo = st.turbo := by
  induction rs with
  | nil => exact fun st => ⟨rfl, rfl, rfl, rfl, rfl, rfl⟩
  | cons r rs ih =>
    intro st
    simp only [List.foldl_cons]
    exact ih (spawnEnemy st r.hp r.speed r.type)

/-- C5: while a wave is in progress, the wave-completion transition fires
on a tick exactly when — after the tick's spawning — the spawn queue is
empty and every enemy on the field is dead (freshly spawned enemies are
alive, so any spawn this tick blocks it); when it fires it adds the flat
reward of 50, then a 3% bonus rounded on the new balance, and increments
the wave index by exactly 1, and it clears the in-wave flag so it cannot
fire again for that wave; when the wave is not in progress the whole
block is a no-op. -/
theorem wave_completion_spec (dt : ℚ) (st : GState) :
    (st.inWave = false → spawnPhase dt st = st) ∧
    (st.inWave = true →
      ((spawnPhase dt st).inWave = false ↔
        ((spawnDrain st.spawnInterval st.spawnQueue (st.spawnElapsed + dt)).1 = [] ∧
          ((spawnDrain st.spawnInterval st.spawnQueue (st.spawnElapsed + dt)).2.2.foldl
            (fun s r => spawnEnemy s r.hp r.speed r.type)
            { st with spawnQueue := (spawnDrain st.spawnInterval st.spawnQueue (st.spawnElapsed + dt)).1,
                      spawnElapsed := (spawnDrain st.spawnInterval st.spawnQueue (st.spawnElapsed + dt)).2.1 }).enemies.all
            (fun e => ¬ e.alive) = true)) ∧
      ((spawnPhase dt st).inWave = false →
        (spawnPhase dt st).money =
          st.money + completionReward st.waveIndex +
            jsRound (((st.money + completionReward st.waveIndex : ℤ) : ℚ) * 0.03) ∧
        (spawnPhase dt st).waveIndex = st.waveIndex + 1) ∧
      ((spawnPhase dt st).inWave = true →
        (spawnPhase dt st).money = st.money ∧
        (spawnPhase dt st).waveIndex = st.waveIndex)) := by
  constructor
  · intro h
    simp [spawnPhase, h]
  · intro h
    unfold spawnPhase
    rw [h]
    simp only [if_true]
    have hfold := spawnEnemy_foldl_fields
      (spawnDrain st.spawnInterval st.spawnQueue (st.spawnElapsed + dt)).2.2
      { st with inWave := true,
                spawnQueue := (spawnDrain st.spawnInterval st.spawnQueue (st.spawnElapsed + dt)).1,
                spawnElapsed := (spawnDrain st.spawnInterval st.spawnQueue (st.spawnElapsed + dt)).2.1 }
    obtain ⟨hmoney, hwave, hinw, hqueue, -⟩ := hfold
    split
    · rename_i hcond
      obtain ⟨hq, hall⟩ := hcond
      rw [hqueue] at hq
      refine ⟨⟨fun _ => ⟨hq, hall⟩, fun _ => rfl⟩, fun _ => ⟨?_, ?_⟩, fun hcontra => ?_⟩
      · rw [hmoney, hwave]
      · rw [hwave]
      · simp at hcontra
    · rename_i hcond
      refine ⟨?_, fun hcontra => ?_, fun _ => ⟨hmoney, hwave⟩⟩
      · rw [hinw]
        simp only [Bool.true_eq_false, false_iff]
        intro hcc
        obtain ⟨hq, hall⟩ := hcc
        refine hcond ⟨?_, hall⟩
        rw [hqueue]
        exact hq
      · rw [hinw] at hcontra
        simp at hcontra

/-- Witness for C5 at `exStateW` (in wave 0, queue empty, one dead enemy,
100 money): the completion fires, pays 50 then round(150·0.03) = 5 for a
total of 155, and advances the wave index to 1. -/
theorem wave_completion_spec_witness :
    (spawnPhase 0 exStateW).inWave = false ∧
    (spawnPhase 0 exStateW).money = 155 ∧
    (spawnPhase 0 exStateW).waveIndex = 1 := by
  have h := (wave_completion_spec 0 exStateW).2 (by decide)
  have hf : (spawnPhase 0 exStateW).inWave = false := h.1.mpr (by decide)
  obtain ⟨hm, hw⟩ := h.2.1 hf
  refine ⟨hf, ?_, by rw [hw]; decide⟩
  rw [hm]
  decide

/-- The `Path` constructor loop produces a chained segment list: each
segment's cumulative offset is the running length so far. -/
theorem buildSegs_chained (hyp : Pt → Pt → ℚ) :
    ∀ (pts : List Pt) (acc : ℚ), SegsChained acc (buildSegs hyp pts acc).1 := by
  intro pts
  induction pts with
  | nil => intro acc; exact trivial
  | cons a rest ih =>
    intro acc
    cases rest with
    | nil => exact trivial
    | cons b rest2 =>
      simp only [buildSegs, SegsChained]
      exact ⟨trivial, ih (acc + hyp a b)⟩

/-- With a non-negative length function, the accumulated total of the
constructor loop never drops below its starting value. -/
theorem buildSegs_total_ge (hyp : Pt → Pt → ℚ) (hnn : ∀ a b, 0 ≤ hyp a b) :
    ∀ (pts : List Pt) (acc : ℚ), acc ≤ (buildSegs hyp pts acc).2 := by
  intro pts
  induction pts with
  | nil => intro acc; exact le_refl acc
  | cons a rest ih =>
    intro acc
    cases rest with
    | nil => exact le_refl acc
    | cons b rest2 =>
      simp only [buildSegs]
      calc acc ≤ acc + hyp a b := by linarith [hnn a b]
        _ ≤ (buildSegs hyp (b :: rest2) (acc + hyp a b)).2 := ih (acc + hyp a b)

/-- If the length function is non-negative and vanishes only on equal
points, a waypoint list whose total accumulated length does not exceed
its start is degenerate: its first and last waypoints coincide. -/
theorem buildSegs_degenerate (hyp : Pt → Pt → ℚ) (hnn : ∀ a b, 0 ≤ hyp a b)
    (hzero : ∀ a b, hyp a b = 0 → a = b) :
    ∀ (pts : List Pt) (acc : ℚ), (buildSegs hyp pts acc).2 ≤ acc →
      ∀ h : pts ≠ [], pts.head h = pts.getLast h := by
  intro pts
  induction pts with
  | nil => intro acc _ h; exact absurd rfl h
  | cons a rest ih =>
    intro acc htot h
    cases rest with
    | nil => rfl
    | cons b rest2 =>
      simp only [buildSegs] at htot
      have h1 : acc + hyp a b ≤ (buildSegs hyp (b :: rest2) (acc + hyp a b)).2 :=
        buildSegs_total_ge hyp hnn _ _
      have hz : hyp a b = 0 := le_antisymm (by linarith) (hnn a b)
      have hab : a = b := hzero a b hz
      have h2 : (buildSegs hyp (b :: rest2) (acc + hyp a b)).2 ≤ acc + hyp a b :=
        le_trans htot (by linarith [hnn a b])
      have hh := ih (acc + hyp a b) h2 (by simp)
      rw [List.getLast_cons (by simp : (b :: rest2) ≠ [])]
      calc (a :: b :: rest2).head h = a := rfl
        _ = b := hab
        _ = (b :: rest2).getLast (by simp) := hh

/-- The `posAt` segment scan, entered with `s` strictly beyond the
running offset of a chained segment list, lands either on the final
fallback waypoint or on a convex combination of some segment's
endpoints. -/
theorem posAtGo_spec (last : Pt) (s : ℚ) :
    ∀ (SL : List Seg) (c : ℚ), SegsChained c SL → c < s →
      posAtGo last s SL = last ∨
        ∃ sg ∈ SL, ∃ t : ℚ, 0 ≤ t ∧ t ≤ 1 ∧ posAtGo last s SL = lerpPt sg.a sg.b t := by
  intro SL
  induction SL with
  | nil => intro c _ _; exact Or.inl rfl
  | cons sg rest ih =>
    intro c hchain hcs
    obtain ⟨hacc, hchain2⟩ := hchain
    unfold posAtGo
    by_cases hle : s ≤ sg.acc + sg.len
    · rw [if_pos hle]
      have hpos : 0 < s - sg.acc := by rw [hacc]; linarith
      have hlen : 0 < sg.len := by linarith
      refine Or.inr ⟨sg, List.mem_cons_self sg rest, (s - sg.acc) / sg.len,
        le_of_lt (div_pos hpos hlen), (div_le_one hlen).mpr (by linarith), rfl⟩
    · rw [if_neg hle]
      push_neg at hle
      rcases ih (sg.acc + sg.len) hchain2 hle with h | ⟨sg2, hmem, t, h0, h1, heq⟩
      · exact Or.inl h
      · exact Or.inr ⟨sg2, List.mem_cons_of_mem sg hmem, t, h0, h1, heq⟩

/-- C9: for a path built by the constructor from a non-empty waypoint
list (with any segment-length function that, like the Euclidean one, is
non-negative and vanishes only on coincident points), `posAt` always
returns a point on the polyline; for `s ≤ 0` it returns the first
waypoint and for `s ≥ length` the last. -/
theorem posAt_on_polyline (hyp : Pt → Pt → ℚ) (pts : List Pt) (s : ℚ)
    (hne : pts ≠ [])
    (hnn : ∀ a b, 0 ≤ hyp a b)
    (hzero : ∀ a b, hyp a b = 0 → a = b) :
    OnPolyline (mkPath hyp pts) ((mkPath hyp pts).posAt s) ∧
    (s ≤ 0 → (mkPath hyp pts).posAt s = pts.head hne) ∧
    ((mkPath hyp pts).length ≤ s → (mkPath hyp pts).posAt s = pts.getLast hne) := by
  have hheadD : pts.headD ⟨0, 0⟩ = pts.head hne := by
    cases pts with
    | nil => exact absurd rfl hne
    | cons a l => rfl
  have hlastD : pts.getLastD ⟨0, 0⟩ = pts.getLast hne := by
    rw [List.getLastD_eq_getLast?, List.getLast?_eq_getLast pts hne]
    rfl
  have hpoints : (mkPath hyp pts).points = pts := rfl
  refine ⟨?_, ?_, ?_⟩
  · unfold Path.posAt
    by_cases h0 : s ≤ 0
    · rw [if_pos h0]
      exact Or.inl (hheadD ▸ List.head_mem hne)
    · rw [if_neg h0]
      by_cases hL : s ≥ (mkPath hyp pts).length
      · rw [if_pos hL]
        exact Or.inl (hlastD ▸ List.getLast_mem hne)
      · rw [if_neg hL]
        have hchain : SegsChained 0 (mkPath hyp pts).segs := buildSegs_chained hyp pts 0
        have hs : (0 : ℚ) < s := lt_of_not_le h0
        rcases posAtGo_spec ((mkPath hyp pts).points.getLastD ⟨0, 0⟩) s
            (mkPath hyp pts).segs 0 hchain hs with h | ⟨sg, hmem, t, ht0, ht1, heq⟩
        · rw [h, hpoints, hlastD]
          exact Or.inl (List.getLast_mem hne)
        · exact Or.inr ⟨sg, hmem, t, ht0, ht1, heq⟩
  · intro h0
    unfold Path.posAt
    rw [if_pos h0, hpoints, hheadD]
  · intro hL
    unfold Path.posAt
    by_cases h0 : s ≤ 0
    · rw [if_pos h0, hpoints, hheadD]
      have htot : (buildSegs hyp pts 0).2 ≤ 0 := le_trans hL h0
      exact buildSegs_degenerate hyp hnn hzero pts 0 htot hne
    · rw [if_neg h0, if_pos hL, hpoints, hlastD]

/-- Witness for C9 on a concrete two-segment path with the taxicab
length function: `posAt` stays on the polyline, and the boundary lookups
return the first and last waypoints. -/
theorem posAt_on_polyline_witness :
    OnPolyline (mkPath taxiLen [⟨0, 0⟩, ⟨3, 4⟩, ⟨10, 4⟩])
      ((mkPath taxiLen [⟨0, 0⟩, ⟨3, 4⟩, ⟨10, 4⟩]).posAt 2) ∧
    (mkPath taxiLen [⟨0, 0⟩, ⟨3, 4⟩, ⟨10, 4⟩]).posAt 0 = ⟨0, 0⟩ ∧
    (mkPath taxiLen [⟨0, 0⟩, ⟨3, 4⟩, ⟨10, 4⟩]).posAt 100 = ⟨10, 4⟩ := by
  have hnn : ∀ a b, 0 ≤ taxiLen a b := by
    intro a b
    unfold taxiLen
    positivity
  have hzero : ∀ a b, taxiLen a b = 0 → a = b := by
    intro a b hz
    unfold taxiLen at hz
    have hx : |b.x - a.x| = 0 := by
      have := abs_nonneg (b.x - a.x)
      have := abs_nonneg (b.y - a.y)
      linarith
    have hy : |b.y - a.y| = 0 := by
      have := abs_nonneg (b.x - a.x)
      linarith
    have hx2 : b.x = a.x := by
      have := abs_eq_zero.mp hx
      linarith
    have hy2 : b.y = a.y := by
      have := abs_eq_zero.mp hy
      linarith
    cases a
    cases b
    simp only at hx2 hy2
    rw [hx2, hy2]
  have h := posAt_on_polyline taxiLen [⟨0, 0⟩, ⟨3, 4⟩, ⟨10, 4⟩] 2 (by decide) hnn hzero
  have h2 := posAt_on_polyline taxiLen [⟨0, 0⟩, ⟨3, 4⟩, ⟨10, 4⟩] 0 (by decide) hnn hzero
  have h3 := posAt_on_polyline taxiLen [⟨0, 0⟩, ⟨3, 4⟩, ⟨10, 4⟩] 100 (by decide) hnn hzero
  refine ⟨h.1, ?_, ?_⟩
  · rw [h2.2.1 (by decide)]
    decide
  · rw [h3.2.2 (by decide)]
    decide

/-- The spawn fold treats the turbo flag as inert cargo: running it with
a different flag value changes nothing but that flag. -/
theorem spawnEnemy_foldl_turbo (rs : List SpawnRec) :
    ∀ (m lv : ℤ) (wi : ℕ) (iw : Bool) (tm : ℚ) (pa : Path) (tw : List Tower)
      (en : List Enemy) (pr : List Projectile) (sq : List SpawnRec) (si se : ℚ)
      (sel : Option ℕ) (aw : Bool) (nw : ℚ) (ov : Overlay) (tb tb' : Bool) (nt ne : ℕ),
      rs.foldl (fun s r => spawnEnemy s r.hp r.speed r.type)
          (GState.mk m lv wi iw tm pa tw en pr sq si se sel aw nw ov tb nt ne) =
        { rs.foldl (fun s r => spawnEnemy s r.hp r.speed r.type)
            (GState.mk m lv wi iw tm pa tw en pr sq si se sel aw nw ov tb' nt ne) with
          turbo := tb } := by
  induction rs with
  | nil =>
    intro m lv wi iw tm pa tw en pr sq si se sel aw nw ov tb tb' nt ne
    rfl
  | cons r rs ih =>
    intro m lv wi iw tm pa tw en pr sq si se sel aw nw ov tb tb' nt ne
    simp only [List.foldl_cons, spawnEnemy]
    exact ih m lv wi iw tm pa tw (en ++ [mkEnemy ne r.hp r.speed r.type]) pr sq si se sel
      aw nw ov tb tb' nt (ne + 1)

/-- The spawning / wave-completion phase never reads the turbo flag. -/
theorem spawnPhase_turbo_comm (dt : ℚ) (m lv : ℤ) (wi : ℕ) (iw : Bool) (tm : ℚ)
    (pa : Path) (tw : List Tower) (en : List Enemy) (pr : List Projectile)
    (sq : List SpawnRec) (si se : ℚ) (sel : Option ℕ) (aw : Bool) (nw : ℚ)
    (ov : Overlay) (tb tb' : Bool) (nt ne : ℕ) :
    spawnPhase dt (GState.mk m lv wi iw tm pa tw en pr sq si se sel aw nw ov tb nt ne) =
      { spawnPhase dt (GState.mk m lv wi iw tm pa tw en pr sq si se sel aw nw ov tb' nt ne) with
        turbo := tb } := by
  cases iw with
  | false => rfl
  | true =>
    unfold spawnPhase
    simp only
    rw [spawnEnemy_foldl_turbo (spawnDrain si sq (se + dt)).2.2 m lv wi true tm pa tw en pr
      (spawnDrain si sq (se + dt)).1 si (spawnDrain si sq (se + dt)).2.1 sel aw nw ov tb tb' nt ne]
    by_cases hc :
        ((spawnDrain si sq (se + dt)).2.2.foldl (fun s r => spawnEnemy s r.hp r.speed r.type)
          (GState.mk m lv wi true tm pa tw en pr (spawnDrain si sq (se + dt)).1 si
            (spawnDrain si sq (se + dt)).2.1 sel aw nw ov tb' nt ne)).spawnQueue = [] ∧
        ((spawnDrain si sq (se + dt)).2.2.foldl (fun s r => spawnEnemy s r.hp r.speed r.type)
          (GState.mk m lv wi true tm pa tw en pr (spawnDrain si sq (se + dt)).1 si
            (spawnDrain si sq (se + dt)).2.1 sel aw nw ov tb' nt ne)).enemies.all
          (fun e => ¬ e.alive) = true
    · rw [if_pos hc, if_pos hc]
      rfl
    · rw [if_neg hc, if_neg hc]
      rfl

/-- `startWave` never reads the turbo flag. -/
theorem startWave_turbo_comm (m lv : ℤ) (wi : ℕ) (iw : Bool) (tm : ℚ)
    (pa : Path) (tw : List Tower) (en : List Enemy) (pr : List Projectile)
    (sq : List SpawnRec) (si se : ℚ) (sel : Option ℕ) (aw : Bool) (nw : ℚ)
    (ov : Overlay) (tb tb' : Bool) (nt ne : ℕ) :
    startWave (GState.mk m lv wi iw tm pa tw en pr sq si se sel aw nw ov tb nt ne) =
      { startWave (GState.mk m lv wi iw tm pa tw en pr sq si se sel aw nw ov tb' nt ne) with
        turbo := tb } := by
  cases iw with
  | false => rfl
  | true => rfl

/-- The auto-wave countdown phase never reads the turbo flag. -/
theorem autoWavePhase_turbo_comm (dt : ℚ) (m lv : ℤ) (wi : ℕ) (iw : Bool) (tm : ℚ)
    (pa : Path) (tw : List Tower) (en : List Enemy) (pr : List Projectile)
    (sq : List SpawnRec) (si se : ℚ) (sel : Option ℕ) (aw : Bool) (nw : ℚ)
    (ov : Overlay) (tb tb' : Bool) (nt ne : ℕ) :
    autoWavePhase dt (GState.mk m lv wi iw tm pa tw en pr sq si se sel aw nw ov tb nt ne) =
      { autoWavePhase dt (GState.mk m lv wi iw tm pa tw en pr sq si se sel aw nw ov tb' nt ne) with
        turbo := tb } := by
  cases iw with
  | true => rfl
  | false =>
    cases aw with
    | false => rfl
    | true =>
      unfold autoWavePhase
      dsimp only
      simp only [Bool.false_eq_true, not_false_eq_true, eq_self_iff_true, true_and, and_true,
        if_true]
      split_ifs with h2 h3
      · exact startWave_turbo_comm m lv wi false tm pa tw en pr sq si se sel true (nw - dt)
          ov tb tb' nt ne
      · rfl
      · rfl

/-- The turbo flag of the state is untouched by the spawning phase. -/
theorem spawnPhase_turbo (dt : ℚ) (st : GState) : (spawnPhase dt st).turbo = st.turbo := by
  obtain ⟨m, lv, wi, iw, tm, pa, tw, en, pr, sq, si, se, sel, aw, nw, ov, tb, nt, ne⟩ := st
  rw [spawnPhase_turbo_comm dt m lv wi iw tm pa tw en pr sq si se sel aw nw ov tb tb nt ne]

/-- C10: the turbo flag is consulted exactly once per tick, as the enemy
movement multiplier — the update pipeline factors through `movePhaseMul`
with multiplier 2 when the flag is set and 1 when clear, under which an
alive enemy's arc length advances by exactly `speed × mul × dt`; the
time, spawning, tower-fire (cooldowns and beam damage), projectile and
auto-wave phases are computed identically for every value of the flag,
which they carry through unchanged. -/
theorem turbo_only_scales_movement (rt : ℚ → ℚ) (dt : ℚ) (st : GState) (b : Bool)
    (pathLen mul : ℚ) (e : Enemy) :
    update rt dt st =
      autoWavePhase dt (projectilePhase rt dt (towersFirePhase rt dt
        (movePhaseMul (if st.turbo then 2 else 1) dt (spawnPhase dt (tickTime dt st))))) ∧
    (e.alive = true → (moveEnemyStep pathLen mul dt e).1.s = e.s + e.speed * mul * dt) ∧
    tickTime dt { st with turbo := b } = { tickTime dt st with turbo := b } ∧
    spawnPhase dt { st with turbo := b } = { spawnPhase dt st with turbo := b } ∧
    towersFirePhase rt dt { st with turbo := b } = { towersFirePhase rt dt st with turbo := b } ∧
    projectilePhase rt dt { st with turbo := b } = { projectilePhase rt dt st with turbo := b } ∧
    autoWavePhase dt { st with turbo := b } = { autoWavePhase dt st with turbo := b } := by
  refine ⟨?_, ?_, ?_, ?_, ?_, ?_, ?_⟩
  · unfold update movePhase
    rw [spawnPhase_turbo]
    rfl
  · intro ha
    unfold moveEnemyStep
    rw [ha]
    by_cases hend : e.s + e.speed * mul * dt ≥ pathLen <;> simp [hend]
  · obtain ⟨m, lv, wi, iw, tm, pa, tw, en, pr, sq, si, se, sel, aw, nw, ov, tb, nt, ne⟩ := st
    rfl
  · obtain ⟨m, lv, wi, iw, tm, pa, tw, en, pr, sq, si, se, sel, aw, nw, ov, tb, nt, ne⟩ := st
    exact spawnPhase_turbo_comm dt m lv wi iw tm pa tw en pr sq si se sel aw nw ov b tb nt ne
  · obtain ⟨m, lv, wi, iw, tm, pa, tw, en, pr, sq, si, se, sel, aw, nw, ov, tb, nt, ne⟩ := st
    rfl
  · obtain ⟨m, lv, wi, iw, tm, pa, tw, en, pr, sq, si, se, sel, aw, nw, ov, tb, nt, ne⟩ := st
    rfl
  · obtain ⟨m, lv, wi, iw, tm, pa, tw, en, pr, sq, si, se, sel, aw, nw, ov, tb, nt, ne⟩ := st
    exact autoWavePhase_turbo_comm dt m lv wi iw tm pa tw en pr sq si se sel aw nw ov b tb nt ne

/-- Witness for C10: in a concrete state, a turbo tick advances the alive
enemy by twice `speed × dt` (140 · 2 · 1/10 = 28 arc units instead of
14). -/
theorem turbo_only_scales_movement_witness :
    (moveEnemyStep 3060 2 (1/10) (mkEnemy 1 24 140 .normal)).1.s =
      (mkEnemy 1 24 140 .normal).s + (mkEnemy 1 24 140 .normal).speed * 2 * (1/10) ∧
    (moveEnemyStep 3060 1 (1/10) (mkEnemy 1 24 140 .normal)).1.s =
      (mkEnemy 1 24 140 .normal).s + (mkEnemy 1 24 140 .normal).speed * 1 * (1/10) := by
  refine ⟨?_, ?_⟩
  · exact (turbo_only_scales_movement (fun q => q) (1/10) exState true 3060 2
      (mkEnemy 1 24 140 .normal)).2.1 (by decide)
  · exact (turbo_only_scales_movement (fun q => q) (1/10) exState true 3060 1
      (mkEnemy 1 24 140 .normal)).2.1 (by decide)

/-- `mapAccumMoney` maps the per-enemy function over the list and adds
up the per-enemy money grants. -/
theorem mapAccumMoney_spec (f : Enemy → Enemy × ℤ) :
    ∀ (en : List Enemy) (m : ℤ),
      (mapAccumMoney f en m).1 = en.map (fun e => (f e).1) ∧
      (mapAccumMoney f en m).2 = m + (en.map (fun e => (f e).2)).sum := by
  intro en
  induction en with
  | nil => intro m; exact ⟨rfl, by simp [mapAccumMoney]⟩
  | cons e es ih =>
    intro m
    simp only [mapAccumMoney, List.map_cons, List.sum_cons]
    refine ⟨by rw [(ih (m + (f e).2)).1], ?_⟩
    rw [(ih (m + (f e).2)).2]
    ring

/-- A dead enemy is untouched by the beam damage loop body. -/
theorem beamEnemyStep_dead (path : Path) (T D : Pt) (R dmgDt : ℚ) (e : Enemy)
    (h : e.alive = false) : beamEnemyStep path T D R dmgDt e = (e, 0) := by
  simp [beamEnemyStep, h]

/-- The beam damage loop body grants exactly `killReward` on the kill
transition and nothing otherwise. -/
theorem beamEnemyStep_reward (path : Path) (T D : Pt) (R dmgDt : ℚ) (e : Enemy) :
    (beamEnemyStep path T D R dmgDt e).2 =
      if e.alive && ! (beamEnemyStep path T D R dmgDt e).1.alive then killReward e else 0 := by
  by_cases ha : e.alive = true
  · by_cases hbh : beamHit (path.posAt e.s) T D R (10 + e.r) = true
    · by_cases hk : e.hp - damageAfterArmor dmgDt .laser e ≤ 0
      · simp [beamEnemyStep, ha, hbh, damageKillStep, hk]
      · simp [beamEnemyStep, ha, hbh, damageKillStep, hk]
    · simp [beamEnemyStep, ha, hbh]
  · rw [Bool.not_eq_true] at ha
    simp [beamEnemyStep_dead path T D R dmgDt e ha, ha]

/-- A dead enemy is untouched by the `explodeAt` loop body. -/
theorem explodeEnemyStep_dead (path : Path) (x y dmg radius : ℚ) (excl : Option ℕ)
    (src : TowerType) (e : Enemy) (h : e.alive = false) :
    explodeEnemyStep path x y dmg radius excl src e = (e, 0) := by
  simp [explodeEnemyStep, h]

/-- The excluded primary target is untouched by the `explodeAt` loop
body. -/
theorem explodeEnemyStep_excluded (path : Path) (x y dmg radius : ℚ) (tid : ℕ)
    (src : TowerType) (e : Enemy) (h : e.eid = tid) :
    explodeEnemyStep path x y dmg radius (some tid) src e = (e, 0) := by
  by_cases ha : e.alive = true
  · simp [explodeEnemyStep, ha, h]
  · rw [Bool.not_eq_true] at ha
    exact explodeEnemyStep_dead path x y dmg radius (some tid) src e ha

/-- The `explodeAt` loop body grants exactly the flat 5 on the kill
transition and nothing otherwise. -/
theorem explodeEnemyStep_reward (path : Path) (x y dmg radius : ℚ) (excl : Option ℕ)
    (src : TowerType) (e : Enemy) :
    (explodeEnemyStep path x y dmg radius excl src e).2 =
      if e.alive && ! (explodeEnemyStep path x y dmg radius excl src e).1.alive then 5
      else 0 := by
  by_cases ha : e.alive = true
  · by_cases hex : excl = some e.eid
    · simp [explodeEnemyStep, ha, hex]
    · by_cases hin : ((path.posAt e.s).x - x) ^ 2 + ((path.posAt e.s).y - y) ^ 2 ≤ radius ^ 2
      · by_cases hk : e.hp - damageAfterArmor dmg src e ≤ 0
        · simp [explodeEnemyStep, ha, hex, hin, damageKillStep, hk]
        · simp [explodeEnemyStep, ha, hex, hin, damageKillStep, hk]
      · simp [explodeEnemyStep, ha, hex, hin]
  · rw [Bool.not_eq_true] at ha
    simp [explodeEnemyStep_dead path x y dmg radius excl src e ha, ha]

/-- The `explodeAt` loop body never raises a dead enemy. -/
theorem explodeEnemyStep_alive_mono (path : Path) (x y dmg radius : ℚ) (excl : Option ℕ)
    (src : TowerType) (e : Enemy) (h : e.alive = false) :
    (explodeEnemyStep path x y dmg radius excl src e).1.alive = false := by
  rw [explodeEnemyStep_dead path x y dmg radius excl src e h]
  exact h

/-- The beam loop body never raises a dead enemy. -/
theorem beamEnemyStep_alive_mono (path : Path) (T D : Pt) (R dmgDt : ℚ) (e : Enemy)
    (h : e.alive = false) : (beamEnemyStep path T D R dmgDt e).1.alive = false := by
  rw [beamEnemyStep_dead path T D R dmgDt e h]
  exact h

/-- The `explodeAt` loop body preserves enemy identity. -/
theorem explodeEnemyStep_eid (path : Path) (x y dmg radius : ℚ) (excl : Option ℕ)
    (src : TowerType) (e : Enemy) :
    (explodeEnemyStep path x y dmg radius excl src e).1.eid = e.eid := by
  by_cases ha : e.alive = true
  · by_cases hex : excl = some e.eid
    · simp [explodeEnemyStep, ha, hex]
    · by_cases hin : ((path.posAt e.s).x - x) ^ 2 + ((path.posAt e.s).y - y) ^ 2 ≤ radius ^ 2
      · by_cases hk : e.hp - damageAfterArmor dmg src e ≤ 0
        · simp [explodeEnemyStep, ha, hex, hin, damageKillStep, hk]
        · simp [explodeEnemyStep, ha, hex, hin, damageKillStep, hk]
      · simp [explodeEnemyStep, ha, hex, hin]
  · rw [Bool.not_eq_true] at ha
    rw [explodeEnemyStep_dead path x y dmg radius excl src e ha]

/-- The hp write-back preserves the alive flag. -/
theorem setHpIf_alive (tid : ℕ) (hp : ℚ) (e : Enemy) : (setHpIf tid hp e).alive = e.alive := by
  unfold setHpIf
  split_ifs <;> rfl

/-- The hp write-back preserves enemy identity. -/
theorem setHpIf_eid (tid : ℕ) (hp : ℚ) (e : Enemy) : (setHpIf tid hp e).eid = e.eid := by
  unfold setHpIf
  split_ifs <;> rfl

/-- The kill mark never raises a dead enemy. -/
theorem killIf_alive_mono (tid : ℕ) (e : Enemy) (h : e.alive = false) :
    (killIf tid e).alive = false := by
  unfold killIf
  split_ifs <;> simp [h]

/-- The hp write-back leaves non-targets untouched. -/
theorem setHpIf_ne (tid : ℕ) (hp : ℚ) (e : Enemy) (h : ¬ e.eid = tid) :
    setHpIf tid hp e = e := by
  simp [setHpIf, h]

/-- The kill mark leaves non-targets untouched. -/
theorem killIf_ne (tid : ℕ) (e : Enemy) (h : ¬ e.eid = tid) : killIf tid e = e := by
  simp [killIf, h]

/-- Every damage-resolution event transforms the enemy list elementwise:
it is a `List.map` of a per-enemy function that never raises a dead
enemy. -/
theorem opApply_shape (path : Path) (op : CombatOp) (s : List Enemy × ℤ) :
    ∃ comp : Enemy → Enemy,
      (opApply path op s).1 = s.1.map comp ∧
      ∀ e : Enemy, e.alive = false → (comp e).alive = false := by
  obtain ⟨en, m⟩ := s
  cases op with
  | beam T D R dmgDt =>
    exact ⟨fun e => (beamEnemyStep path T D R dmgDt e).1,
      (mapAccumMoney_spec _ en m).1, beamEnemyStep_alive_mono path T D R dmgDt⟩
  | splash x y dmg radius excl src =>
    by_cases hg : radius ≤ 0 ∨ dmg ≤ 0
    · refine ⟨id, ?_, fun e h => h⟩
      simp [opApply, explodeAt, hg]
    · refine ⟨fun e => (explodeEnemyStep path x y dmg radius excl src e).1, ?_,
        explodeEnemyStep_alive_mono path x y dmg radius excl src⟩
      simp only [opApply, explodeAt, if_neg hg]
      exact (mapAccumMoney_spec _ en m).1
  | impact tid dmg src explosive splashR =>
    simp only [opApply, impactOn]
    cases hfind : en.find? (fun e => e.eid = tid) with
    | none =>
      exact ⟨id, by simp, fun e h => h⟩
    | some tgt =>
      dsimp only
      by_cases halive : tgt.alive = true
      · rw [if_pos halive]
        have hen1 : setEnemyHp en tid (tgt.hp - damageAfterArmor dmg src tgt) =
            en.map (setHpIf tid (tgt.hp - damageAfterArmor dmg src tgt)) := rfl
        by_cases hexp : (explosive = true) ∧
            ¬ (splashR ≤ 0 ∨ ((jsRound (dmg * 0.6) : ℤ) : ℚ) ≤ 0)
        · obtain ⟨hexp1, hexp2⟩ := hexp
          rw [hexp1]
          simp only [if_true, explodeAt, if_neg hexp2]
          by_cases hkill : tgt.hp - damageAfterArmor dmg src tgt ≤ 0
          · rw [if_pos hkill]
            refine ⟨fun e =>
              killIf tid
                ((explodeEnemyStep path (path.posAt tgt.s).x (path.posAt tgt.s).y
                  ((jsRound (dmg * 0.6) : ℤ) : ℚ) splashR (some tid) src
                  (setHpIf tid (tgt.hp - damageAfterArmor dmg src tgt) e)).1), ?_, ?_⟩
            · show killEnemy _ tid = _
              unfold killEnemy
              rw [(mapAccumMoney_spec _ _ m).1, hen1, List.map_map, List.map_map]
              rfl
            · intro e h
              exact killIf_alive_mono tid _
                (explodeEnemyStep_alive_mono path _ _ _ _ _ src _ (by rw [setHpIf_alive]; exact h))
          · rw [if_neg hkill]
            refine ⟨fun e =>
              (explodeEnemyStep path (path.posAt tgt.s).x (path.posAt tgt.s).y
                ((jsRound (dmg * 0.6) : ℤ) : ℚ) splashR (some tid) src
                (setHpIf tid (tgt.hp - damageAfterArmor dmg src tgt) e)).1, ?_, ?_⟩
            · rw [(mapAccumMoney_spec _ _ m).1, hen1, List.map_map]
              rfl
            · intro e h
              exact explodeEnemyStep_alive_mono path _ _ _ _ _ src _
                (by rw [setHpIf_alive]; exact h)
        · have hr1 : (if explosive = true then
              explodeAt path (path.posAt tgt.s).x (path.posAt tgt.s).y
                ((jsRound (dmg * 0.6) : ℤ) : ℚ) splashR (some tid) src
                (setEnemyHp en tid (tgt.hp - damageAfterArmor dmg src tgt)) m
            else (setEnemyHp en tid (tgt.hp - damageAfterArmor dmg src tgt), m)) =
              (setEnemyHp en tid (tgt.hp - damageAfterArmor dmg src tgt), m) := by
            cases hex : explosive with
            | false => rw [if_neg (by simp)]
            | true =>
              rw [if_pos rfl]
              have hg : splashR ≤ 0 ∨ ((jsRound (dmg * 0.6) : ℤ) : ℚ) ≤ 0 := by
                by_contra hgc
                exact hexp ⟨hex, hgc⟩
              simp only [explodeAt, if_pos hg]
          rw [hr1]
          by_cases hkill : tgt.hp - damageAfterArmor dmg src tgt ≤ 0
          · rw [if_pos hkill]
            refine ⟨fun e => killIf tid (setHpIf tid (tgt.hp - damageAfterArmor dmg src tgt) e),
              ?_, ?_⟩
            · show killEnemy _ tid = _
              unfold killEnemy
              rw [hen1, List.map_map]
              rfl
            · intro e h
              exact killIf_alive_mono tid _ (by rw [setHpIf_alive]; exact h)
          · rw [if_neg hkill]
            refine ⟨setHpIf tid (tgt.hp - damageAfterArmor dmg src tgt), hen1, ?_⟩
            intro e h
            rw [setHpIf_alive]
            exact h
      · rw [if_neg halive]
        exact ⟨id, by simp, fun e h => h⟩

/-- Positionally, a dead enemy stays dead across any damage event. -/
theorem opApply_dead_mono (path : Path) (op : CombatOp) (s : List Enemy × ℤ) (i : ℕ)
    (h : aliveAt s.1 i = false) : aliveAt (opApply path op s).1 i = false := by
  obtain ⟨comp, hmap, hmono⟩ := opApply_shape path op s
  rw [hmap]
  unfold aliveAt at h ⊢
  rw [List.getElem?_map]
  cases hg : s.1[i]? with
  | none => rfl
  | some e =>
    rw [hg] at h
    exact hmono e h

/-- A sequence of damage events can no longer kill the enemy at a
position where it is already dead. -/
theorem killCount_of_dead (path : Path) (i : ℕ) :
    ∀ (ops : List CombatOp) (s : List Enemy × ℤ), aliveAt s.1 i = false →
      killCount path s i ops = 0 := by
  intro ops
  induction ops with
  | nil => intro s _; rfl
  | cons op ops ih =>
    intro s h
    unfold killCount
    rw [ih (opApply path op s) (opApply_dead_mono path op s i h)]
    unfold killedAt
    rw [h]
    simp

/-- At most one event of any sequence kills the enemy at a given
position. -/
theorem killCount_le_one (path : Path) (i : ℕ) :
    ∀ (ops : List CombatOp) (s : List Enemy × ℤ), killCount path s i ops ≤ 1 := by
  intro ops
  induction ops with
  | nil => intro s; exact Nat.zero_le 1
  | cons op ops ih =>
    intro s
    unfold killCount
    by_cases hk : killedAt path op s i = true
    · rw [if_pos hk]
      have hdead : aliveAt (opApply path op s).1 i = false := by
        unfold killedAt at hk
        rw [Bool.and_eq_true] at hk
        rw [Bool.not_eq_true'] at hk
        exact hk.2
      rw [killCount_of_dead path i ops (opApply path op s) hdead]
    · rw [if_neg hk]
      rw [Nat.zero_add]
      exact ih (opApply path op s)

/-- When a damage event acts as `List.map comp`, its kill-attribution
sum is a plain elementwise sum over the pre-event enemies. -/
theorem opKillSum_map (path : Path) (op : CombatOp) (s : List Enemy × ℤ)
    (comp : Enemy → Enemy) (hmap : (opApply path op s).1 = s.1.map comp) :
    opKillSum path op s =
      (s.1.map fun e => if e.alive && ! (comp e).alive then opReward op e else 0).sum := by
  unfold opKillSum
  rw [hmap]
  have hz : ∀ l : List Enemy, l.zip (l.map comp) = l.map fun e => (e, comp e) := by
    intro l
    induction l with
    | nil => rfl
    | cons a as ihz => simp [ihz]
  rw [hz, List.map_map]
  rfl

/-- Splitting an elementwise integer sum at a distinguished list element
whose summand differs by `c`, all other summands agreeing. -/
theorem sum_split (pre post : List Enemy) (tgt : Enemy) (f g : Enemy → ℤ) (c : ℤ)
    (h1 : ∀ e ∈ pre, f e = g e) (h2 : ∀ e ∈ post, f e = g e) (h3 : f tgt = g tgt + c) :
    ((pre ++ tgt :: post).map f).sum = ((pre ++ tgt :: post).map g).sum + c := by
  rw [List.map_append, List.map_append, List.sum_append, List.sum_append,
    List.map_cons, List.map_cons, List.sum_cons, List.sum_cons,
    List.map_congr_left h1, List.map_congr_left h2, h3]
  ring

/-- An event that leaves the enemy list unchanged attributes no kill
money. -/
theorem opKillSum_id (path : Path) (op : CombatOp) (s : List Enemy × ℤ)
    (hmap : (opApply path op s).1 = s.1) :
    opKillSum path op s = 0 := by
  rw [opKillSum_map path op s id (by rw [hmap, List.map_id])]
  have : ∀ e : Enemy, (if e.alive && ! (id e).alive then opReward op e else 0) = (0 : ℤ) := by
    intro e
    cases he : e.alive <;> simp [he]
  rw [List.map_congr_left (fun e _ => this e)]
  simp

/-- Money attribution for a beam pass: the money delta is the sum of
`killReward` over exactly the enemies it kills. -/
theorem beam_money (path : Path) (T D : Pt) (R dmgDt : ℚ) (en : List Enemy) (m : ℤ) :
    (opApply path (.beam T D R dmgDt) (en, m)).2 =
      m + opKillSum path (.beam T D R dmgDt) (en, m) := by
  rw [opKillSum_map path (.beam T D R dmgDt) (en, m)
    (fun e => (beamEnemyStep path T D R dmgDt e).1)
    ((mapAccumMoney_spec (beamEnemyStep path T D R dmgDt) en m).1)]
  show (mapAccumMoney (beamEnemyStep path T D R dmgDt) en m).2 = _
  rw [(mapAccumMoney_spec (beamEnemyStep path T D R dmgDt) en m).2]
  congr 1
  apply congrArg
  apply List.map_congr_left
  intro e _
  exact beamEnemyStep_reward path T D R dmgDt e

/-- Money attribution for a splash explosion: the money delta is 5 per
enemy it kills. -/
theorem splash_money (path : Path) (x y dmg radius : ℚ) (excl : Option ℕ) (src : TowerType)
    (en : List Enemy) (m : ℤ) :
    (opApply path (.splash x y dmg radius excl src) (en, m)).2 =
      m + opKillSum path (.splash x y dmg radius excl src) (en, m) := by
  by_cases hg : radius ≤ 0 ∨ dmg ≤ 0
  · have hid : (opApply path (.splash x y dmg radius excl src) (en, m)).1 = en := by
      simp [opApply, explodeAt, hg]
    rw [opKillSum_id path (.splash x y dmg radius excl src) (en, m) hid]
    simp [opApply, explodeAt, hg]
  · have hmap := (mapAccumMoney_spec (explodeEnemyStep path x y dmg radius excl src) en m).1
    rw [opKillSum_map path (.splash x y dmg radius excl src) (en, m)
      (fun e => (explodeEnemyStep path x y dmg radius excl src e).1)
      (by simpa [opApply, explodeAt, hg] using hmap)]
    have : (opApply path (.splash x y dmg radius excl src) (en, m)).2 =
        (mapAccumMoney (explodeEnemyStep path x y dmg radius excl src) en m).2 := by
      simp [opApply, explodeAt, hg]
    rw [this, (mapAccumMoney_spec (explodeEnemyStep path x y dmg radius excl src) en m).2]
    congr 1
    apply congrArg
    apply List.map_congr_left
    intro e _
    exact explodeEnemyStep_reward path x y dmg radius excl src e

/-- Money attribution for a projectile impact (enemy identities assumed
pairwise distinct, as the spawn counter guarantees): the money delta is
the target's `killReward` if the direct hit kills it, plus 5 per
bystander the explosion kills. -/
theorem impact_money (path : Path) (tid : ℕ) (dmg : ℚ) (src : TowerType) (explosive : Bool)
    (splashR : ℚ) (en : List Enemy) (m : ℤ)
    (hnodup : (en.map Enemy.eid).Nodup) :
    (opApply path (.impact tid dmg src explosive splashR) (en, m)).2 =
      m + opKillSum path (.impact tid dmg src explosive splashR) (en, m) := by
  cases hsome : en.find? (fun e => e.eid = tid) with
  | none =>
    have hid : (opApply path (.impact tid dmg src explosive splashR) (en, m)).1 = en := by
      simp [opApply, impactOn, hsome]
    rw [opKillSum_id path (.impact tid dmg src explosive splashR) (en, m) hid]
    simp [opApply, impactOn, hsome]
  | some tgt =>
    by_cases halive : tgt.alive = true
    case neg =>
      have hid : (opApply path (.impact tid dmg src explosive splashR) (en, m)).1 = en := by
        simp [opApply, impactOn, hsome, halive]
      rw [opKillSum_id path (.impact tid dmg src explosive splashR) (en, m) hid]
      simp [opApply, impactOn, hsome, halive]
    case pos =>
    have hfind := hsome
    rw [List.find?_eq_some] at hfind
    obtain ⟨hptgt, pre, post, hsplit, hpre⟩ := hfind
    have htgt_eid : tgt.eid = tid := by simpa using hptgt
    have hpre2 : ∀ e ∈ pre, ¬ e.eid = tid := by
      intro e he
      have := hpre e he
      simpa using this
    have hpost2 : ∀ e ∈ post, ¬ e.eid = tid := by
      intro e he hc
      rw [hsplit, List.map_append, List.map_cons] at hnodup
      have h2 := List.Nodup.of_append_right hnodup
      rw [List.nodup_cons] at h2
      apply h2.1
      rw [htgt_eid, ← hc]
      exact List.mem_map_of_mem Enemy.eid he
    have htgt1_eid : (setHpIf tid (tgt.hp - damageAfterArmor dmg src tgt) tgt).eid = tid := by
      rw [setHpIf_eid]
      exact htgt_eid
    have hg1tgt : setHpIf tid (tgt.hp - damageAfterArmor dmg src tgt) tgt =
        { tgt with hp := tgt.hp - damageAfterArmor dmg src tgt } := by
      simp [setHpIf, htgt_eid]
    by_cases hexp : explosive = true ∧
        ¬ (splashR ≤ 0 ∨ ((jsRound (dmg * 0.6) : ℤ) : ℚ) ≤ 0)
    · obtain ⟨hexp1, hexp2⟩ := hexp
      have hr1 : (if explosive = true then
            explodeAt path (path.posAt tgt.s).x (path.posAt tgt.s).y
              ((jsRound (dmg * 0.6) : ℤ) : ℚ) splashR (some tid) src
              (setEnemyHp en tid (tgt.hp - damageAfterArmor dmg src tgt)) m
          else (setEnemyHp en tid (tgt.hp - damageAfterArmor dmg src tgt), m)) =
          mapAccumMoney
            (explodeEnemyStep path (path.posAt tgt.s).x (path.posAt tgt.s).y
              ((jsRound (dmg * 0.6) : ℤ) : ℚ) splashR (some tid) src)
            (setEnemyHp en tid (tgt.hp - damageAfterArmor dmg src tgt)) m := by
        rw [if_pos hexp1]
        simp only [explodeAt, if_neg hexp2]
      have hφexc := explodeEnemyStep_excluded path (path.posAt tgt.s).x (path.posAt tgt.s).y
        ((jsRound (dmg * 0.6) : ℤ) : ℚ) splashR tid src
        (setHpIf tid (tgt.hp - damageAfterArmor dmg src tgt) tgt) htgt1_eid
      by_cases hkill : tgt.hp - damageAfterArmor dmg src tgt ≤ 0
      · have hmap : (opApply path (.impact tid dmg src explosive splashR) (en, m)).1 =
            en.map (fun e =>
              killIf tid
                ((explodeEnemyStep path (path.posAt tgt.s).x (path.posAt tgt.s).y
                  ((jsRound (dmg * 0.6) : ℤ) : ℚ) splashR (some tid) src
                  (setHpIf tid (tgt.hp - damageAfterArmor dmg src tgt) e)).1)) := by
          simp only [opApply, impactOn, hsome]
          rw [if_pos halive]
          rw [hr1, if_pos hkill]
          show killEnemy (mapAccumMoney _ _ m).1 tid = _
          unfold killEnemy
          rw [(mapAccumMoney_spec _ _ m).1]
          unfold setEnemyHp
          rw [List.map_map, List.map_map]
          rfl
        have hmoney : (opApply path (.impact tid dmg src explosive splashR) (en, m)).2 =
            m + (en.map fun e =>
              (explodeEnemyStep path (path.posAt tgt.s).x (path.posAt tgt.s).y
                ((jsRound (dmg * 0.6) : ℤ) : ℚ) splashR (some tid) src
                (setHpIf tid (tgt.hp - damageAfterArmor dmg src tgt) e)).2).sum +
              killReward tgt := by
          simp only [opApply, impactOn, hsome]
          rw [if_pos halive]
          rw [hr1, if_pos hkill]
          show (mapAccumMoney _ _ m).2 + killReward tgt = _
          rw [(mapAccumMoney_spec _ _ m).2]
          unfold setEnemyHp
          rw [List.map_map]
          rfl
        rw [hmoney, opKillSum_map path (.impact tid dmg src explosive splashR) (en, m) _ hmap]
        rw [hsplit]
        rw [sum_split pre post tgt
          (fun e => if e.alive && ! (killIf tid
              ((explodeEnemyStep path (path.posAt tgt.s).x (path.posAt tgt.s).y
                ((jsRound (dmg * 0.6) : ℤ) : ℚ) splashR (some tid) src
                (setHpIf tid (tgt.hp - damageAfterArmor dmg src tgt) e)).1)).alive then
              opReward (.impact tid dmg src explosive splashR) e else 0)
          (fun e => (explodeEnemyStep path (path.posAt tgt.s).x (path.posAt tgt.s).y
            ((jsRound (dmg * 0.6) : ℤ) : ℚ) splashR (some tid) src
            (setHpIf tid (tgt.hp - damageAfterArmor dmg src tgt) e)).2)
          (killReward tgt) ?_ ?_ ?_]
        · ring
        · intro e he
          dsimp only
          have hne := hpre2 e he
          rw [setHpIf_ne tid _ e hne]
          rw [killIf_ne tid _ (by rw [explodeEnemyStep_eid]; exact hne)]
          rw [explodeEnemyStep_reward]
          by_cases hc : e.alive && ! (explodeEnemyStep path (path.posAt tgt.s).x
              (path.posAt tgt.s).y ((jsRound (dmg * 0.6) : ℤ) : ℚ) splashR (some tid) src e).1.alive
          · rw [if_pos hc, if_pos hc]
            simp [opReward, hne]
          · rw [if_neg hc, if_neg hc]
        · intro e he
          dsimp only
          have hne := hpost2 e he
          rw [setHpIf_ne tid _ e hne]
          rw [killIf_ne tid _ (by rw [explodeEnemyStep_eid]; exact hne)]
          rw [explodeEnemyStep_reward]
          by_cases hc : e.alive && ! (explodeEnemyStep path (path.posAt tgt.s).x
              (path.posAt tgt.s).y ((jsRound (dmg * 0.6) : ℤ) : ℚ) splashR (some tid) src e).1.alive
          · rw [if_pos hc, if_pos hc]
            simp [opReward, hne]
          · rw [if_neg hc, if_neg hc]
        · dsimp only
          rw [hφexc]
          have hkillif : killIf tid (setHpIf tid (tgt.hp - damageAfterArmor dmg src tgt) tgt) =
              { setHpIf tid (tgt.hp - damageAfterArmor dmg src tgt) tgt with alive := false } := by
            simp [killIf, htgt1_eid]
          rw [hkillif]
          simp [halive, opReward, htgt_eid]
      · have hmap : (opApply path (.impact tid dmg src explosive splashR) (en, m)).1 =
            en.map (fun e =>
              (explodeEnemyStep path (path.posAt tgt.s).x (path.posAt tgt.s).y
                ((jsRound (dmg * 0.6) : ℤ) : ℚ) splashR (some tid) src
                (setHpIf tid (tgt.hp - damageAfterArmor dmg src tgt) e)).1) := by
          simp only [opApply, impactOn, hsome]
          rw [if_pos halive]
          rw [hr1, if_neg hkill]
          rw [(mapAccumMoney_spec _ _ m).1]
          unfold setEnemyHp
          rw [List.map_map]
          rfl
        have hmoney : (opApply path (.impact tid dmg src explosive splashR) (en, m)).2 =
            m + (en.map fun e =>
              (explodeEnemyStep path (path.posAt tgt.s).x (path.posAt tgt.s).y
                ((jsRound (dmg * 0.6) : ℤ) : ℚ) splashR (some tid) src
                (setHpIf tid (tgt.hp - damageAfterArmor dmg src tgt) e)).2).sum := by
          simp only [opApply, impactOn, hsome]
          rw [if_pos halive]
          rw [hr1, if_neg hkill]
          rw [(mapAccumMoney_spec _ _ m).2]
          unfold setEnemyHp
          rw [List.map_map]
          rfl
        rw [hmoney, opKillSum_map path (.impact tid dmg src explosive splashR) (en, m) _ hmap]
        rw [hsplit]
        rw [sum_split pre post tgt
          (fun e => if e.alive && ! ((explodeEnemyStep path (path.posAt tgt.s).x
              (path.posAt tgt.s).y ((jsRound (dmg * 0.6) : ℤ) : ℚ) splashR (some tid) src
              (setHpIf tid (tgt.hp - damageAfterArmor dmg src tgt) e)).1).alive then
              opReward (.impact tid dmg src explosive splashR) e else 0)
          (fun e => (explodeEnemyStep path (path.posAt tgt.s).x (path.posAt tgt.s).y
            ((jsRound (dmg * 0.6) : ℤ) : ℚ) splashR (some tid) src
            (setHpIf tid (tgt.hp - damageAfterArmor dmg src tgt) e)).2)
          0 ?_ ?_ ?_]
        · ring
        · intro e he
          dsimp only
          have hne := hpre2 e he
          rw [setHpIf_ne tid _ e hne]
          rw [explodeEnemyStep_reward]
          by_cases hc : e.alive && ! (explodeEnemyStep path (path.posAt tgt.s).x
              (path.posAt tgt.s).y ((jsRound (dmg * 0.6) : ℤ) : ℚ) splashR (some tid) src e).1.alive
          · rw [if_pos hc, if_pos hc]
            simp [opReward, hne]
          · rw [if_neg hc, if_neg hc]
        · intro e he
          dsimp only
          have hne := hpost2 e he
          rw [setHpIf_ne tid _ e hne]
          rw [explodeEnemyStep_reward]
          by_cases hc : e.alive && ! (explodeEnemyStep path (path.posAt tgt.s).x
              (path.posAt tgt.s).y ((jsRound (dmg * 0.6) : ℤ) : ℚ) splashR (some tid) src e).1.alive
          · rw [if_pos hc, if_pos hc]
            simp [opReward, hne]
          · rw [if_neg hc, if_neg hc]
        · dsimp only
          rw [hφexc, hg1tgt]
          simp [halive]
    · have hr1 : (if explosive = true then
            explodeAt path (path.posAt tgt.s).x (path.posAt tgt.s).y
              ((jsRound (dmg * 0.6) : ℤ) : ℚ) splashR (some tid) src
              (setEnemyHp en tid (tgt.hp - damageAfterArmor dmg src tgt)) m
          else (setEnemyHp en tid (tgt.hp - damageAfterArmor dmg src tgt), m)) =
          (setEnemyHp en tid (tgt.hp - damageAfterArmor dmg src tgt), m) := by
        cases hex : explosive with
        | false => rw [if_neg (by simp)]
        | true =>
          rw [if_pos rfl]
          have hg : splashR ≤ 0 ∨ ((jsRound (dmg * 0.6) : ℤ) : ℚ) ≤ 0 := by
            by_contra hgc
            exact hexp ⟨hex, hgc⟩
          simp only [explodeAt, if_pos hg]
      by_cases hkill : tgt.hp - damageAfterArmor dmg src tgt ≤ 0
      · have hmap : (opApply path (.impact tid dmg src explosive splashR) (en, m)).1 =
            en.map (fun e => killIf tid (setHpIf tid (tgt.hp - damageAfterArmor dmg src tgt) e)) := by
          simp only [opApply, impactOn, hsome]
          rw [if_pos halive]
          rw [hr1, if_pos hkill]
          show killEnemy (setEnemyHp en tid _) tid = _
          unfold killEnemy setEnemyHp
          rw [List.map_map]
          rfl
        have hmoney : (opApply path (.impact tid dmg src explosive splashR) (en, m)).2 =
            m + killReward tgt := by
          simp only [opApply, impactOn, hsome]
          rw [if_pos halive]
          rw [hr1, if_pos hkill]
        rw [hmoney, opKillSum_map path (.impact tid dmg src explosive splashR) (en, m) _ hmap]
        rw [hsplit]
        rw [sum_split pre post tgt _ (fun _ => (0 : ℤ)) (killReward tgt) ?_ ?_ ?_]
        · simp
        · intro e he
          dsimp only
          have hne := hpre2 e he
          rw [setHpIf_ne tid _ e hne, killIf_ne tid e hne]
          cases hc : e.alive <;> simp [hc]
        · intro e he
          dsimp only
          have hne := hpost2 e he
          rw [setHpIf_ne tid _ e hne, killIf_ne tid e hne]
          cases hc : e.alive <;> simp [hc]
        · dsimp only
          have hkillif : killIf tid (setHpIf tid (tgt.hp - damageAfterArmor dmg src tgt) tgt) =
              { setHpIf tid (tgt.hp - damageAfterArmor dmg src tgt) tgt with alive := false } := by
            simp [killIf, htgt1_eid]
          rw [hkillif]
          simp [halive, opReward, htgt_eid]
      · have hmap : (opApply path (.impact tid dmg src explosive splashR) (en, m)).1 =
            en.map (setHpIf tid (tgt.hp - damageAfterArmor dmg src tgt)) := by
          simp only [opApply, impactOn, hsome]
          rw [if_pos halive]
          rw [hr1, if_neg hkill]
          rfl
        have hmoney : (opApply path (.impact tid dmg src explosive splashR) (en, m)).2 = m := by
          simp only [opApply, impactOn, hsome]
          rw [if_pos halive]
          rw [hr1, if_neg hkill]
        rw [hmoney, opKillSum_map path (.impact tid dmg src explosive splashR) (en, m) _ hmap]
        rw [hsplit]
        rw [sum_split pre post tgt _ (fun _ => (0 : ℤ)) 0 ?_ ?_ ?_]
        · simp
        · intro e he
          dsimp only
          have hne := hpre2 e he
          rw [setHpIf_ne tid _ e hne]
          cases hc : e.alive <;> simp [hc]
        · intro e he
          dsimp only
          have hne := hpost2 e he
          rw [setHpIf_ne tid _ e hne]
          cases hc : e.alive <;> simp [hc]
        · dsimp only
          rw [hg1tgt]
          simp [halive]

/-- C6: threading the shared enemy list and money through any sequence
of damage-resolution events — beam passes, splash explosions, projectile
impacts, in particular all the events of one tick or of an enemy's whole
lifetime — the enemy at any given position is marked dead by at most one
event and once dead stays dead; and each event's money delta is exactly
the sum, over the enemies that event kills, of its reward for them, so
an enemy's kill money is credited at most once (enemy identities are
pairwise distinct, as the spawn counter guarantees). -/
theorem enemy_killed_and_rewarded_once (path : Path) (op : CombatOp) (ops : List CombatOp)
    (en : List Enemy) (m : ℤ) (i : ℕ) (hnodup : (en.map Enemy.eid).Nodup) :
    killCount path (en, m) i ops ≤ 1 ∧
    (aliveAt en i = false → aliveAt (opApply path op (en, m)).1 i = false) ∧
    (opApply path op (en, m)).2 = m + opKillSum path op (en, m) := by
  refine ⟨killCount_le_one path i ops (en, m), opApply_dead_mono path op (en, m) i, ?_⟩
  cases op with
  | beam T D R dmgDt => exact beam_money path T D R dmgDt en m
  | splash x y dmg radius excl src => exact splash_money path x y dmg radius excl src en m
  | impact tid dmg src explosive splashR =>
    exact impact_money path tid dmg src explosive splashR en m hnodup

/-- Witness for C6: hitting the 1-hp enemy with two identical lethal beam
passes in sequence kills it at most once; a splash explosion leaves an
already-dead enemy dead; and the beam pass's money delta equals its
kill-attribution sum. -/
theorem enemy_killed_and_rewarded_once_witness :
    killCount exPath ([exEnemyS], 0) 0
      [.beam ⟨0, 0⟩ ⟨1, 0⟩ 240 30, .beam ⟨0, 0⟩ ⟨1, 0⟩ 240 30] ≤ 1 ∧
    aliveAt (opApply exPath (.splash 0 0 10 50 none .bomber)
      ([{ exEnemyS with alive := false }], 0)).1 0 = false ∧
    (opApply exPath (.beam ⟨0, 0⟩ ⟨1, 0⟩ 240 30) ([exEnemyS], 0)).2 =
      0 + opKillSum exPath (.beam ⟨0, 0⟩ ⟨1, 0⟩ 240 30) ([exEnemyS], 0) := by
  have h1 := enemy_killed_and_rewarded_once exPath (.beam ⟨0, 0⟩ ⟨1, 0⟩ 240 30)
    [.beam ⟨0, 0⟩ ⟨1, 0⟩ 240 30, .beam ⟨0, 0⟩ ⟨1, 0⟩ 240 30] [exEnemyS] 0 0 (by decide)
  have h2 := enemy_killed_and_rewarded_once exPath (.splash 0 0 10 50 none .bomber) []
    [{ exEnemyS with alive := false }] 0 0 (by decide)
  exact ⟨h1.1, h2.2.1 (by decide), h1.2.2⟩

end

end SimpleTD
